import Mathlib

/-!
Verification development for the mandrel G-code generator
(TypeScript source: the typed generator with the G75-capability flag and
simulated fallback, which the specification treats as canonical).

The embedding is a shallow one over exact rational arithmetic:
JavaScript numbers are modelled by the rationals, except where the source
can actually produce NaN (an arithmetic operation on an undefined emitter
position), which is modelled explicitly by the JsNum type.  The
process-wide mutable emitter state of the source is threaded explicitly
through every emitting function.  Number-to-text rendering
(toFixed(decimals) followed by numeric coercion, and template-literal
interpolation) is modelled by one deterministic function, fmt, which
agrees with JavaScript on every value whose decimal expansion fits in the
configured number of decimals; no theorem below depends on the digits it
prints, only on determinism and on the alphabet it uses (digits, minus
sign and decimal point only).
-/

namespace Mandrel

/-- Round to the nearest integer, ties toward positive infinity, as the
ECMAScript toFixed specification requires (pick the larger of two equally
near candidates). -/
def jsRound (q : ℚ) : ℤ := ⌊q + 1/2⌋

/-- Drop trailing zero characters. -/
def stripTrailingZeros (s : String) : String :=
  ((s.toList.reverse.dropWhile (fun c => c = '0')).reverse).asString

/-- Left-pad a digit string with zeros to the given width. -/
def padLeftZeros (s : String) (w : ℕ) : String :=
  (List.replicate (w - s.length) '0').asString ++ s

/-- Model of the source's numeric rendering: round the value to d decimal
places (toFixed(d)), coerce back to a number, and print it the default
JavaScript way (no trailing zeros, no exponent for the magnitudes the
generator handles). -/
def fmt (d : ℕ) (q : ℚ) : String :=
  let n : ℤ := jsRound (q * ((10 : ℚ) ^ d))
  let sign := if n < 0 then "-" else ""
  let m := n.natAbs
  let ip := m / 10 ^ d
  let fp := m % 10 ^ d
  if fp = 0 then sign ++ toString ip
  else sign ++ toString ip ++ "." ++ stripTrailingZeros (padLeftZeros (toString fp) d)

/-- A JavaScript number that may be NaN.  NaN arises in the source in one
place only: arithmetic on an axis read from the emitter position when that
axis is undefined. -/
inductive JsNum where
  | nan : JsNum
  | num (q : ℚ) : JsNum
deriving DecidableEq

/-- Strict equality of a present numeric value against a possibly-undefined
stored one, as the source's === comparison: NaN compares unequal to
everything and a number never equals undefined. -/
def jsStrictEq (v : JsNum) (sv : Option JsNum) : Bool :=
  match v, sv with
  | JsNum.num a, some (JsNum.num b) => a = b
  | _, _ => false

/-- The source's < on a rational against a possibly-NaN value: any
comparison involving NaN is false. -/
def jsLtNum (m : ℚ) (v : JsNum) : Bool :=
  match v with
  | JsNum.num w => m < w
  | JsNum.nan => false

/-- Render a possibly-NaN value the way string concatenation does. -/
def fmtJ (d : ℕ) (v : JsNum) : String :=
  match v with
  | JsNum.nan => "NaN"
  | JsNum.num q => fmt d q

/-- Maximum of a list of rationals, as Math.max over a spread argument
list.  The empty case (JavaScript: -Infinity) is not representable and is
never reached by the generator on well-formed input; it is mapped to 0. -/
def jsMaxList (l : List ℚ) : ℚ := l.foldr max (l.headD 0)

/-- Minimum of a list of rationals, as Math.min over a spread argument
list; same caveat about the empty case (JavaScript: +Infinity). -/
def jsMinList (l : List ℚ) : ℚ := l.foldr min (l.headD 0)

/-- Maximum over possibly-NaN values: NaN poisons the result, as Math.max
does.  Used for the taper retract computation, whose inputs always carry a
present numeric x in every call the generator makes. -/
def jsMaxNum (l : List JsNum) : JsNum :=
  l.foldr
    (fun a b =>
      match a, b with
      | JsNum.num x, JsNum.num y => JsNum.num (max x y)
      | _, _ => JsNum.nan)
    (l.headD (JsNum.num 0))

/-- Addition of a clearance to a possibly-undefined, possibly-NaN axis
value: undefined + number and NaN + number are both NaN, and the result is
always a present value. -/
def jsAddClear (oz : Option JsNum) (c : ℚ) : Option JsNum :=
  some
    (match oz with
     | some (JsNum.num z) => JsNum.num (z + c)
     | _ => JsNum.nan)

/-- The semi-fixed configuration constants of the generator (the source's
single global record). -/
structure Globals where
  depthsMax : ℚ
  depthsMin : ℚ
  xClearance : ℚ
  zClearance : ℚ
  colletShift : ℚ
  feed : ℚ
  rpm : ℚ
  stickout : ℚ
  decimals : ℕ
  G75Functional : Bool
deriving DecidableEq

/-- The shipped constants of the source. -/
def defaultGlobals : Globals :=
  { depthsMax := 1/25
    depthsMin := 1/100
    xClearance := 1/100
    zClearance := 1/10
    colletShift := 1/20
    feed := 1/500
    rpm := 1500
    stickout := 1
    decimals := 4
    G75Functional := false }

/-- A sparse one-to-three axis motion target: each axis is independently
present or absent, and a present axis may carry NaN. -/
structure MovePoint where
  x : Option JsNum
  y : Option JsNum
  z : Option JsNum
deriving DecidableEq

/-- A measured diameter/position pair; these never carry NaN on the
well-formed inputs the generator handles. -/
structure DimensionPoint where
  x : ℚ
  z : ℚ
deriving DecidableEq

/-- Conversion of a dimension point to a motion target with x and z
present, as the source's getMovePoint. -/
def DimensionPoint.getMovePoint (p : DimensionPoint) : MovePoint :=
  ⟨some (JsNum.num p.x), none, some (JsNum.num p.z)⟩

/-- The process-wide emitter state of the source: last emitted motion
mode, last emitted feed (-1 when none is pending) and the last known axis
positions.  The source declares the position fields but, as the theorems
below establish, never assigns them. -/
structure EmitState where
  lastGCode : String
  lastFeed : ℚ
  posX : Option JsNum
  posY : Option JsNum
  posZ : Option JsNum
deriving DecidableEq

/-- The state the source initializes its module-level record with. -/
def initState : EmitState :=
  { lastGCode := "None", lastFeed := -1, posX := none, posY := none, posZ := none }

/-- The no-op test at the top of both motion emitters: every present axis
strictly equals the corresponding last-known position. -/
def allAxesUnchanged (p : MovePoint) (s : EmitState) : Bool :=
  (match p.x with | none => true | some v => jsStrictEq v s.posX) &&
  (match p.y with | none => true | some v => jsStrictEq v s.posY) &&
  (match p.z with | none => true | some v => jsStrictEq v s.posZ)

/-- The axis words of a motion line: an axis is printed when it is present
and differs from the last-known value. -/
def axisWords (d : ℕ) (p : MovePoint) (s : EmitState) : String :=
  (match p.x with
   | some v => if ¬ jsStrictEq v s.posX then "X" ++ fmtJ d v else ""
   | none => "") ++
  (match p.y with
   | some v => if ¬ jsStrictEq v s.posY then "Y" ++ fmtJ d v else ""
   | none => "") ++
  (match p.z with
   | some v => if ¬ jsStrictEq v s.posZ then "Z" ++ fmtJ d v else ""
   | none => "")

/-- Optional parenthesized comment suffix. -/
def commentText (c : Option String) : String :=
  match c with
  | some t => "(" ++ t ++ ")"
  | none => ""

/-- rapidPosition of the source: emits a G00 line, eliding the mode word
after another rapid and eliding unchanged axes, clears the pending feed;
emits nothing and leaves the state untouched when no present axis
differs.  The source never assigns state.position, and neither does this
embedding. -/
def rapidPosition (g : Globals) (p : MovePoint) (comment : Option String)
    (s : EmitState) : String × EmitState :=
  if allAxesUnchanged p s then ("", s)
  else
    ((if s.lastGCode ≠ "00" then "G00" else "") ++ axisWords g.decimals p s ++
       commentText comment ++ "\n",
     { s with lastGCode := "00", lastFeed := -1 })

/-- linearInterpolation of the source: same structure as rapidPosition
with mode word G01, plus a feed word emitted when a feed is given and
differs from the last emitted one; the stored feed becomes the given feed,
or -1 when none is given. -/
def linearInterpolation (g : Globals) (p : MovePoint) (feed : Option ℚ)
    (comment : Option String) (s : EmitState) : String × EmitState :=
  if allAxesUnchanged p s then ("", s)
  else
    ((if s.lastGCode ≠ "01" then "G01" else "") ++ axisWords g.decimals p s ++
       (match feed with
        | some f => if f ≠ s.lastFeed then "F" ++ fmt g.decimals f else ""
        | none => "") ++
       commentText comment ++ "\n",
     { s with lastGCode := "01",
              lastFeed := match feed with | none => -1 | some f => f })

/-- Addition of a clearance to a possibly-NaN value. -/
def jsAddNum (v : JsNum) (c : ℚ) : JsNum :=
  match v with
  | JsNum.num x => JsNum.num (x + c)
  | JsNum.nan => JsNum.nan

/-- boxCycle of the source: a rapid move to the start point followed by a
single G74 line (the source writes an X word where a Z word was surely
meant for the end position; the embedding reproduces the X), then the
tracked mode is reset to None. -/
def boxCycle (g : Globals) (startPoint endPoint : DimensionPoint)
    (finishBufferRadius feed : ℚ) (comment : Option String)
    (s : EmitState) : String × EmitState :=
  let r0 := rapidPosition g startPoint.getMovePoint none s
  (r0.1 ++ "G74" ++ "X" ++ fmt g.decimals endPoint.x ++ "X" ++ fmt g.decimals endPoint.z ++
     "I" ++ fmt g.decimals (g.depthsMax / 2) ++ "U" ++ fmt g.decimals finishBufferRadius ++
     "F" ++ fmt g.decimals feed ++ commentText comment ++ "\n",
   { r0.2 with lastGCode := "None" })

/-- taperSubroutine of the source: the literal contour point list followed
by the subroutine-return marker; purely textual, no state effect. -/
def taperSubroutine (g : Globals) (_id : ℕ) (points : List DimensionPoint) : String :=
  points.foldl
    (fun acc p => acc ++ "X" ++ fmt g.decimals p.x ++ "Z" ++ fmt g.decimals p.z ++ "\n") ""
    ++ "RF\n"

/-- genMultiPassPoints of the source: subdivide a contour into roughing
passes; pass i scales every point's x by per-point step (startX - x) /
numPasses, and the final pass is the argument contour itself. -/
def genMultiPassPoints (points : List DimensionPoint) (startX I : ℚ) :
    List (List DimensionPoint) :=
  let xVals := points.map (·.x)
  let numPasses : ℕ := (⌈(startX - jsMinList xVals) / (2 * I)⌉).toNat
  let xDeltas := xVals.map (fun v => (startX - v) / (numPasses : ℚ))
  ((List.range' 1 (numPasses - 1)).map
      (fun (i : ℕ) =>
        List.zipWith (fun delta p => DimensionPoint.mk (startX - (i : ℚ) * delta) p.z)
          xDeltas points))
    ++ [points]

/-- One step of basicTaper's path loop: a feed move along the next point,
with its text appended to the accumulator. -/
def taperStep (g : Globals) (feed : ℚ) (acc : String × EmitState)
    (p : MovePoint) : String × EmitState :=
  let r := linearInterpolation g p (some feed) none acc.2
  (acc.1 ++ r.1, r.2)

/-- basicTaper of the source: feed along the given points, retract in x to
clearance above the taper's maximum, and rapid back to the z captured from
the emitter position at entry (absent when that position is unknown). -/
def basicTaper (g : Globals) (points : List MovePoint) (feed : ℚ)
    (s : EmitState) : String × EmitState :=
  let startZ := s.posZ
  let r1 := points.foldl (taperStep g feed) ("", s)
  let maxX := jsMaxNum (points.map (fun p => p.x.getD JsNum.nan))
  let r2 := linearInterpolation g ⟨some (jsAddNum maxX g.xClearance), none, none⟩ none none r1.2
  let r3 := rapidPosition g ⟨none, none, startZ⟩ none r2.2
  (r1.1 ++ r2.1 ++ r3.1, r3.2)

/-- One iteration of simG75's pass loop: run the pass's taper, retract in
x above the pass maximum, and rapid to clearance above the entry z (the
entry z is the emitter position's z at simG75 entry; when that is unknown,
JavaScript's undefined + clearance arithmetic makes the target NaN). -/
def simG75Pass (g : Globals) (maxDiam F : ℚ) (origZ : Option JsNum)
    (acc : String × EmitState) (pass : List DimensionPoint) : String × EmitState :=
  let rA := basicTaper g (pass.map DimensionPoint.getMovePoint) F acc.2
  let rB := linearInterpolation g ⟨some (JsNum.num (maxDiam + g.xClearance)), none, none⟩
    (some F) none rA.2
  let rC := rapidPosition g ⟨none, none, jsAddClear origZ g.zClearance⟩ none rB.2
  (acc.1 ++ rA.1 ++ rB.1 ++ rC.1, rC.2)

/-- simG75 of the source: manual simulation of a G75 contour cycle.  The
first component is the function's local text accumulation; the source
function has no return statement, so its JavaScript caller receives
undefined, never this text.  The raw G74 line is appended as a bare
template literal and performs no reset of the tracked mode. -/
def simG75 (g : Globals) (points : List DimensionPoint) (I U F : ℚ)
    (s : EmitState) : String × EmitState :=
  let finishSpacedPoints := points.map (fun p => DimensionPoint.mk (p.x + 2 * U) p.z)
  let maxDiam := jsMaxList (finishSpacedPoints.map (·.x))
  let clearZ := jsMinList (finishSpacedPoints.map (·.z))
  let origPoint : MovePoint := ⟨s.posX, s.posY, s.posZ⟩
  let code0 :=
    match s.posX with
    | some v =>
      if jsLtNum maxDiam v then
        "G74X" ++ fmt g.decimals maxDiam ++ "Z" ++ fmt g.decimals clearZ ++
          "I" ++ fmt g.decimals I ++ "U" ++ fmt g.decimals 0 ++
          "F" ++ fmt g.decimals F ++ "\n"
      else ""
    | none => ""
  let passes := genMultiPassPoints (points.map (fun p => DimensionPoint.mk (p.x + 2 * U) p.z)) maxDiam I
  let r1 := passes.foldl (simG75Pass g maxDiam F origPoint.z) (code0, s)
  let r2 := linearInterpolation g origPoint (some F) none r1.2
  (r1.1 ++ r2.1, r2.2)

/-- contourCycle of the source.  With the native-cycle flag set: entry
linear move, one G75 line, point list subroutine, tracked mode reset to
None.  Without it: entry linear move, then the call to simG75, whose
missing return statement makes JavaScript append the text undefined to the
returned code while simG75's state effects still happen. -/
def contourCycle (g : Globals) (startPoint : DimensionPoint)
    (points : List DimensionPoint) (subroutineID : ℕ)
    (finishBufferRadius feed : ℚ) (comment : Option String)
    (s : EmitState) : String × EmitState :=
  if g.G75Functional then
    let r1 := linearInterpolation g startPoint.getMovePoint (some feed)
      (some "Beginning G75 contour cycle") s
    let line := "G75" ++ "I" ++ fmt g.decimals (g.depthsMax / 2) ++
      "U" ++ fmt g.decimals finishBufferRadius ++ "F" ++ fmt g.decimals feed ++
      commentText comment ++ "\n"
    (r1.1 ++ line ++ taperSubroutine g subroutineID points,
     { r1.2 with lastGCode := "None" })
  else
    let r1 := linearInterpolation g startPoint.getMovePoint (some feed)
      (some ("Simulated G75 Contour cycle" ++
        (match comment with | none => "" | some c => " - " ++ c))) s
    let r2 := simG75 g points (g.depthsMax / 2) finishBufferRadius feed r1.2
    (r1.1 ++ "undefined", r2.2)

/-- Stable insertion into a list sorted by descending z (an element is
placed before the first strictly smaller z, after equal ones seen so far
in insertion order), modelling the stable comparator sort of the source. -/
def insertDescZ (p : DimensionPoint) : List DimensionPoint → List DimensionPoint
  | [] => [p]
  | q :: t => if q.z ≤ p.z then p :: q :: t else q :: insertDescZ p t

/-- Stable sort by descending z. -/
def sortDescZ : List DimensionPoint → List DimensionPoint
  | [] => []
  | p :: t => insertDescZ p (sortDescZ t)

/-- Stable insertion into a list sorted by ascending z. -/
def insertAscZ (p : DimensionPoint) : List DimensionPoint → List DimensionPoint
  | [] => [p]
  | q :: t => if p.z ≤ q.z then p :: q :: t else q :: insertAscZ p t

/-- Stable sort by ascending z, modelling the source's comparator sort of
its temporary (diameter, location) objects. -/
def sortAscZ : List DimensionPoint → List DimensionPoint
  | [] => []
  | p :: t => insertAscZ p (sortAscZ t)

/-- A machining section: the point list in design order (first point at
z = 0), its derived length (maximum z) and maximum diameter, and the
machining-order view (z negated and offset to the original range, sorted
by descending z, then shifted by the stickout). -/
structure Section where
  points : List DimensionPoint
  length : ℚ
  maxDiameter : ℚ
  machiningPoints : List DimensionPoint
deriving DecidableEq

/-- The Section constructor of the source. -/
def mkSection (g : Globals) (points : List DimensionPoint) : Section :=
  let length := jsMaxList (points.map (·.z))
  let maxDiameter := jsMaxList (points.map (·.x))
  let machining0 := points.map (fun p => DimensionPoint.mk p.x (-p.z + length))
  { points := points
    length := length
    maxDiameter := maxDiameter
    machiningPoints := (sortDescZ machining0).map (fun p => DimensionPoint.mk p.x (p.z - g.stickout)) }

/-- Message of the RangeError thrown by sectionCycle's geometric
validation, copied verbatim from the source. -/
def rangeErrMsg : String :=
  "Provided taper includes diameter(s) exceeding provided start diameter, taper will not be accurate!"

/-- Message of the TypeError JavaScript raises when sectionCycle reads
machiningPoints[0].x on an empty section; never reached on sections the
segmenter produces from well-formed input. -/
def typeErrMsg : String := "Cannot read properties of undefined (reading 'x')"

/-- sectionCycle of the source: validate diameter containment (throwing
before anything is emitted), then pull-reference move, operator pause,
approach, spindle start, contour cycle, finishing taper, retract, spindle
stop.  Errors model the thrown exceptions: they carry no emitted text and
occur before any state mutation of this section. -/
def sectionCycle (g : Globals) (startDiameter : ℚ) (sec : Section)
    (subroutineID : ℕ) (s : EmitState) : Except String (String × EmitState) :=
  if startDiameter < sec.maxDiameter then Except.error rangeErrMsg
  else
    match sec.machiningPoints.head? with
    | none => Except.error typeErrMsg
    | some mp0 =>
      let c0 := "G94F" ++ fmt g.decimals (g.rpm * g.feed) ++ "\n"
      let r1 := linearInterpolation g
        ⟨some (JsNum.num (mp0.x + g.xClearance)), none, some (JsNum.num mp0.z)⟩ none none s
      let c2 := "M01(Move stock to appropriate position)\n"
      let r3 := linearInterpolation g
        ⟨some (JsNum.num (startDiameter + g.xClearance)), none,
         some (JsNum.num (sec.length - g.stickout + g.zClearance))⟩ none none r1.2
      let c4 := "M03S" ++ fmt g.decimals g.rpm ++ "\n" ++ "G95F" ++ fmt g.decimals g.feed ++ "\n"
      let r5 := contourCycle g
        (DimensionPoint.mk (startDiameter + g.xClearance) (sec.length - g.stickout + g.zClearance))
        sec.machiningPoints subroutineID (g.depthsMax / 4) g.feed none r3.2
      let r6 := basicTaper g (sec.machiningPoints.map DimensionPoint.getMovePoint) g.feed r5.2
      let r7 := rapidPosition g
        ⟨some (JsNum.num (startDiameter + g.xClearance)), none, some (JsNum.num g.zClearance)⟩
        none r6.2
      Except.ok (c0 ++ r1.1 ++ c2 ++ r3.1 ++ c4 ++ r5.1 ++ r6.1 ++ r7.1 ++ "M05\n", r7.2)

/-- Truncation toward zero, as the JavaScript % operator uses. -/
def jsTrunc (q : ℚ) : ℤ := if 0 ≤ q then ⌊q⌋ else ⌈q⌉

/-- The source's value % 1: the fractional part left by truncation toward
zero. -/
def jsMod1 (q : ℚ) : ℚ := q - jsTrunc q

/-- indexOf on a rational array: index of the first strictly-equal
element, none when absent (the source compares against -1). -/
def jsIndexOf : List ℚ → ℚ → Option ℕ
  | [], _ => none
  | a :: t, v => if a = v then some 0 else (jsIndexOf t v).map (· + 1)

/-- findIndex with the predicate (element > bound). -/
def jsFindIdxGt : List ℚ → ℚ → Option ℕ
  | [], _ => none
  | a :: t, v => if v < a then some 0 else (jsFindIdxGt t v).map (· + 1)

/-- Array.prototype.slice(a, b): the elements at indices a to b - 1. -/
def jsSlice {α : Type} (l : List α) (a b : ℕ) : List α := (l.drop a).take (b - a)

/-- The segmenter's boundary computation (the two-way branch on whether a
measured point sits exactly at the boundary): returns the fractional index
of the boundary and the boundary point itself, interpolating linearly
between the neighbours when the boundary is off-grid.  List accesses are
in bounds whenever the boundary lies strictly between the first and last
measured z, which the segmenter guarantees for well-formed input; the
fallback values stand in for the undefined/NaN arithmetic JavaScript would
produce outside that contract. -/
def boundaryCalc (xs zs : List ℚ) (b : ℚ) : ℚ × (ℚ × ℚ) :=
  match jsIndexOf zs b with
  | some m => ((m : ℚ), (xs.getD m 0, zs.getD m 0))
  | none =>
    match jsFindIdxGt zs b with
    | some k =>
      let ei : ℚ := ((k : ℚ) - 1) + (b - zs.getD (k - 1) 0) / (zs.getD k 0 - zs.getD (k - 1) 0)
      let f := jsMod1 ei
      (ei, (xs.getD (k - 1) 0 + f * (xs.getD k 0 - xs.getD (k - 1) 0),
            zs.getD (k - 1) 0 + f * (zs.getD k 0 - zs.getD (k - 1) 0)))
    | none => (0, (0, 0))

/-- Shift a point's z by a section offset. -/
def offsetPt (c : ℚ) (p : DimensionPoint) : DimensionPoint := ⟨p.x, p.z - c⟩

/-- One non-final iteration of the segmenter's loop: compute the end
boundary, assemble the section's points (a synthesized start when the
running start index is fractional, the sliced whole measured points, a
synthesized end when the end index is fractional), each re-expressed
relative to the section's start. -/
def sectionBody (g : Globals) (orgPts : List DimensionPoint) (xs zs : List ℚ)
    (i : ℕ) (startIndex : ℚ) (startPoint : ℚ × ℚ) : Section × (ℚ × (ℚ × ℚ)) :=
  let r := boundaryCalc xs zs (((i : ℚ) + 1) * g.stickout)
  let inc1 :=
    if jsMod1 startIndex ≠ 0 then
      [DimensionPoint.mk startPoint.1 (startPoint.2 - (i : ℚ) * g.stickout)]
    else []
  let mids := (jsSlice orgPts (⌈startIndex⌉.toNat) ((⌊r.1⌋).toNat + 1)).map
    (offsetPt ((i : ℚ) * g.stickout))
  let inc3 :=
    if jsMod1 r.1 ≠ 0 then
      [DimensionPoint.mk r.2.1 (r.2.2 - (i : ℚ) * g.stickout)]
    else []
  (mkSection g (inc1 ++ mids ++ inc3), r)

/-- The segmenter's final section: from the running start point to the
last measured point, no upper interpolation. -/
def finalSection (g : Globals) (orgPts : List DimensionPoint) (i : ℕ)
    (startIndex : ℚ) (startPoint : ℚ × ℚ) : Section :=
  let inc1 :=
    if jsMod1 startIndex ≠ 0 then
      [DimensionPoint.mk startPoint.1 (startPoint.2 - (i : ℚ) * g.stickout)]
    else []
  let mids := (jsSlice orgPts (⌈startIndex⌉.toNat) ((orgPts.length - 1) + 1)).map
    (offsetPt ((i : ℚ) * g.stickout))
  mkSection g (inc1 ++ mids)

/-- The segmenter's loop, one constructor per remaining non-final
iteration, ending with the final section. -/
def ipLoop (g : Globals) (orgPts : List DimensionPoint) (xs zs : List ℚ) :
    ℕ → ℕ → ℚ → (ℚ × ℚ) → List Section
  | 0, i, si, sp => [finalSection g orgPts i si sp]
  | c + 1, i, si, sp =>
    let r := sectionBody g orgPts xs zs i si sp
    r.1 :: ipLoop g orgPts xs zs c (i + 1) r.2.1 r.2.2

/-- interpolatePoints of the source: split the measured points into
ceil(maxZ / stickout) sections, interpolating off-grid boundaries. -/
def interpolatePoints (g : Globals) (xPoints zPoints : List ℚ) : List Section :=
  let fullLength := jsMaxList zPoints
  let numSections : ℕ := (⌈fullLength / g.stickout⌉).toNat
  let organizedPoints := (List.range xPoints.length).map
    (fun i => DimensionPoint.mk (xPoints.getD i 0) (zPoints.getD i 0))
  ipLoop g organizedPoints xPoints zPoints (numSections - 1) 0 0
    (xPoints.getD 0 0, zPoints.getD 0 0)

/-- Message returned on mismatched diameter/location array lengths, copied
verbatim (including its typo) from the source. -/
def lengthErrMsg : String :=
  "Diameters and locations contain unqual numbers of valid data points."

/-- The direction-normalization step of genCode: when the first diameter
exceeds the last, the diameter list is reversed; the source then iterates
over the locations evaluating (-point + taperLength) inside a forEach
whose result is discarded, so the location list is returned unchanged. -/
def reverseStep (d l : List ℚ) : List ℚ × List ℚ :=
  match d.head?, d.getLast? with
  | some a, some b =>
    if b < a then
      let _taperLength := jsMaxList l
      (d.reverse, l)
    else (d, l)
  | _, _ => (d, l)

/-- The input-preparation phase of genCode, on already-clean numeric data
(the note-emitting removal counters of the source are zero for such
input): default quarter-inch locations when none are given, otherwise the
length check and the stable sort by location; then the
direction-normalization step. -/
def genCodePrep (diameterList : List ℚ) (optLocationList : Option (List ℚ)) :
    Except String (List ℚ × List ℚ) :=
  match optLocationList with
  | none =>
    let locationPoints := (List.range diameterList.length).map (fun i => (i : ℚ) * (1/4))
    Except.ok (reverseStep diameterList locationPoints)
  | some ls =>
    if ls.length ≠ diameterList.length then Except.error lengthErrMsg
    else
      let tempObjects := (List.range ls.length).map
        (fun i => DimensionPoint.mk (diameterList.getD i 0) (ls.getD i 0))
      let sorted := sortAscZ tempObjects
      Except.ok (reverseStep (sorted.map (·.x)) (sorted.map (·.z)))

/-- The per-section loop of genCode inside its try block: accumulate the
section marker and cycle text per section; a thrown error discards the
accumulated text and surfaces the message, with the state as of the throw
(sectionCycle mutates nothing before throwing). -/
def sectionLoop (g : Globals) (stockDiameter : ℚ) :
    List Section → ℕ → EmitState → (Except String String) × EmitState
  | [], _, s => (Except.ok "", s)
  | sec :: rest, i, s =>
    match sectionCycle g stockDiameter sec ((i + 1) * 100) s with
    | Except.error m => (Except.error m, s)
    | Except.ok (c, s1) =>
      match sectionLoop g stockDiameter rest (i + 1) s1 with
      | (Except.error m, s2) => (Except.error m, s2)
      | (Except.ok body, s2) =>
        (Except.ok ("(Section " ++ toString (i + 1) ++ ")\n" ++ c ++ body), s2)

/-- genCode of the source, on already-clean numeric input: prepare and
order the data (returning the length-mismatch message alone on bad
shape), segment, emit the header (the generation date is the date
parameter), run every section inside the try, and either return the error
message alone - discarding all accumulated section text - or the full
program ending in M30. -/
def genCode (g : Globals) (date : String) (stockDiameter : ℚ)
    (diameterList : List ℚ) (optLocationList : Option (List ℚ))
    (s : EmitState) : String × EmitState :=
  match genCodePrep diameterList optLocationList with
  | Except.error msg => (msg, s)
  | Except.ok (diameterPoints, locationPoints) =>
    let sections := interpolatePoints g diameterPoints locationPoints
    let header :=
      "(OMalley Brass)\n" ++
      "(" ++ fmt g.decimals g.stickout ++ " inch part stickout)\n" ++
      "(" ++ fmt g.decimals stockDiameter ++ " inch diameter stock)\n" ++
      "(T1 OD Cutter)\n" ++
      "(Code generation by Jeremy Peplinski)\n" ++
      "(Executed " ++ date ++ ")\n" ++
      "G72G90G97G95F" ++ fmt g.decimals g.feed ++ "\n" ++
      "T1\n"
    match sectionLoop g stockDiameter sections 0 s with
    | (Except.error m, s1) => (m, s1)
    | (Except.ok body, s1) => (header ++ body ++ "M30\n", s1)

deriving instance DecidableEq for Except

/-- The three last-known axis positions of an emitter state, bundled for
the preservation lemmas: no emitting function ever writes them. -/
def pos3 (s : EmitState) : Option JsNum × Option JsNum × Option JsNum :=
  (s.posX, s.posY, s.posZ)

/-- The organizedPoints array interpolatePoints assembles from the two
coordinate arrays. -/
def organizedPoints (xs zs : List ℚ) : List DimensionPoint :=
  (List.range xs.length).map (fun i => DimensionPoint.mk (xs.getD i 0) (zs.getD i 0))

/-- A non-final section of the segmenter's loop, written directly in terms
of its index: the running start data equal the boundary computation at the
section's own start boundary. -/
def closedSec (g : Globals) (orgPts : List DimensionPoint) (xs zs : List ℚ) (i : ℕ) : Section :=
  (sectionBody g orgPts xs zs i (boundaryCalc xs zs ((i : ℚ) * g.stickout)).1
    (boundaryCalc xs zs ((i : ℚ) * g.stickout)).2).1

/-- The final section of the segmenter's loop, written directly in terms
of its index. -/
def closedFinal (g : Globals) (orgPts : List DimensionPoint) (xs zs : List ℚ) (i : ℕ) : Section :=
  finalSection g orgPts i (boundaryCalc xs zs ((i : ℚ) * g.stickout)).1
    (boundaryCalc xs zs ((i : ℚ) * g.stickout)).2

/-! ## Theorems -/

/-- Helper: the pass subdivision always ends with the argument contour
itself. -/
theorem genMultiPassPoints_getLast (points : List DimensionPoint) (startX I : ℚ) :
    (genMultiPassPoints points startX I).getLast? = some points := by
  simp [genMultiPassPoints]

/-- Helper: when the claimed pass count is at least one, the pass
subdivision has exactly that many passes. -/
theorem genMultiPassPoints_length (points : List DimensionPoint) (startX I : ℚ)
    (h1 : 1 ≤ (⌈(startX - jsMinList (points.map (·.x))) / (2 * I)⌉).toNat) :
    (genMultiPassPoints points startX I).length =
      (⌈(startX - jsMinList (points.map (·.x))) / (2 * I)⌉).toNat := by
  simp only [genMultiPassPoints, List.length_append, List.length_map, List.length_range',
    List.length_singleton]
  omega

/-- C6: the claim asserts that rapidMove updates the last-known position
for every present axis.  The source never assigns state.position: at the
failing input (a present, changed x axis from the initial state) the
emitter prints the axis word, but the resulting state still carries no
known position on any axis — only the mode word and the cleared feed are
recorded. -/
theorem rapidPosition_position_never_updated :
    (rapidPosition defaultGlobals ⟨some (JsNum.num 1), none, none⟩ none initState).1 = "G00X1\n" ∧
    (rapidPosition defaultGlobals ⟨some (JsNum.num 1), none, none⟩ none initState).2 =
      { lastGCode := "00", lastFeed := -1, posX := none, posY := none, posZ := none } :=
  of_decide_eq_true (by with_unfolding_all rfl)

/-- C9: the claim asserts that emitting the same MovePoint twice in a row
with rapidMove yields empty text on the second call.  Because the
last-known position is never recorded, the second call re-emits the axis
word (only the mode word is elided), producing the nonempty text X1 plus
newline. -/
theorem rapidPosition_not_idempotent :
    (rapidPosition defaultGlobals ⟨some (JsNum.num 1), none, none⟩ none
        (rapidPosition defaultGlobals ⟨some (JsNum.num 1), none, none⟩ none initState).2).1
      = "X1\n" ∧
    (rapidPosition defaultGlobals ⟨some (JsNum.num 1), none, none⟩ none
        (rapidPosition defaultGlobals ⟨some (JsNum.num 1), none, none⟩ none initState).2).1
      ≠ "" :=
  of_decide_eq_true (by with_unfolding_all rfl)

/-- C10: the claim asserts that genCode re-offsets the position list when
it reverses a free-end-last diameter list.  At the failing input the
diameters are reversed but the positions come back unchanged (the source's
forEach evaluates -point + taperLength and discards every result);
re-offsetting over the same span would have produced locations 0, 2, 3
rather than the returned 0, 1, 3. -/
theorem genCode_reversal_does_not_reoffset :
    genCodePrep [2/5, 3/10, 1/5] (some [0, 1, 3]) =
      Except.ok ([1/5, 3/10, 2/5], [0, 1, 3]) ∧
    ([0, 1, 3] : List ℚ) ≠ ([0, 2, 3] : List ℚ) :=
  of_decide_eq_true (by with_unfolding_all rfl)

/-- C5: with the native-cycle flag off, contourCycle's returned text is
exactly the entry linear-move line followed by the literal text undefined:
simG75 assembles its commands into a local string but has no return
statement, so none of the simulated roughing text reaches the caller. -/
theorem contourCycle_simulated_returns_undefined (g : Globals)
    (startPoint : DimensionPoint) (points : List DimensionPoint)
    (subroutineID : ℕ) (finishBufferRadius feed : ℚ) (comment : Option String)
    (s : EmitState) (hflag : g.G75Functional = false) :
    (contourCycle g startPoint points subroutineID finishBufferRadius feed comment s).1 =
      (linearInterpolation g startPoint.getMovePoint (some feed)
        (some ("Simulated G75 Contour cycle" ++
          (match comment with | none => "" | some c => " - " ++ c))) s).1 ++ "undefined" := by
  unfold contourCycle
  rw [hflag]
  with_unfolding_all rfl

/-- Witness for C5 at the shipped configuration. -/
theorem contourCycle_simulated_returns_undefined_witness :
    defaultGlobals.G75Functional = false ∧
    (contourCycle defaultGlobals ⟨1/2, 1/10⟩ [⟨3/10, 0⟩] 100 (1/100) (1/500) none initState).1 =
      (linearInterpolation defaultGlobals (DimensionPoint.getMovePoint ⟨1/2, 1/10⟩)
        (some (1/500)) (some ("Simulated G75 Contour cycle" ++ "")) initState).1 ++ "undefined" :=
  ⟨rfl,
    contourCycle_simulated_returns_undefined defaultGlobals ⟨1/2, 1/10⟩ [⟨3/10, 0⟩]
      100 (1/100) (1/500) none initState rfl⟩

/-- C4 counterexample: for a flat offset contour (the single point
x = 0.52 with maxPassDepth 0.02) the claimed pass count N = ceil((startX -
min x) / (2 maxPassDepth)) is zero, yet the pass subdivision produces one
pass. -/
theorem genMultiPassPoints_flat_contour_counterexample :
    (genMultiPassPoints [⟨13/25, 0⟩]
        (jsMaxList (([⟨13/25, 0⟩] : List DimensionPoint).map (·.x))) (1/50)).length = 1 ∧
    (⌈(jsMaxList (([⟨13/25, 0⟩] : List DimensionPoint).map (·.x)) -
        jsMinList (([⟨13/25, 0⟩] : List DimensionPoint).map (·.x))) / (2 * (1/50 : ℚ))⌉).toNat = 0 := by
  constructor
  · exact of_decide_eq_true (by with_unfolding_all rfl)
  · have h : (jsMaxList (([⟨13/25, 0⟩] : List DimensionPoint).map (·.x)) -
        jsMinList (([⟨13/25, 0⟩] : List DimensionPoint).map (·.x))) / (2 * (1/50 : ℚ)) = 0 := by
      with_unfolding_all rfl
    rw [h]
    simp

/-- C4 (amended): whenever the offset contour (every x increased by twice
the finish allowance) has a positive diameter range, the simulated cycle's
pass subdivision produces exactly N = ceil((startX - min x) / (2
maxPassDepth)) passes, startX being the offset contour's own maximum x;
and the last pass is exactly the offset contour with no scaling residual
(a flat offset contour instead gives N = 0 but one pass, see the
counterexample). -/
theorem genMultiPassPoints_pass_count (pts : List DimensionPoint) (U I : ℚ)
    (hI : 0 < I)
    (hrange :
      jsMinList ((pts.map (fun p => DimensionPoint.mk (p.x + 2 * U) p.z)).map (·.x)) <
      jsMaxList ((pts.map (fun p => DimensionPoint.mk (p.x + 2 * U) p.z)).map (·.x))) :
    (genMultiPassPoints (pts.map (fun p => DimensionPoint.mk (p.x + 2 * U) p.z))
        (jsMaxList ((pts.map (fun p => DimensionPoint.mk (p.x + 2 * U) p.z)).map (·.x))) I).length =
      (⌈(jsMaxList ((pts.map (fun p => DimensionPoint.mk (p.x + 2 * U) p.z)).map (·.x)) -
          jsMinList ((pts.map (fun p => DimensionPoint.mk (p.x + 2 * U) p.z)).map (·.x))) /
            (2 * I)⌉).toNat ∧
    (genMultiPassPoints (pts.map (fun p => DimensionPoint.mk (p.x + 2 * U) p.z))
        (jsMaxList ((pts.map (fun p => DimensionPoint.mk (p.x + 2 * U) p.z)).map (·.x))) I).getLast? =
      some (pts.map (fun p => DimensionPoint.mk (p.x + 2 * U) p.z)) := by
  constructor
  · apply genMultiPassPoints_length
    have hpos : 0 <
        (jsMaxList ((pts.map (fun p => DimensionPoint.mk (p.x + 2 * U) p.z)).map (·.x)) -
          jsMinList ((pts.map (fun p => DimensionPoint.mk (p.x + 2 * U) p.z)).map (·.x))) /
            (2 * I) := by
      apply div_pos
      · linarith
      · linarith
    have hceil := Int.ceil_pos.mpr hpos
    omega
  · exact genMultiPassPoints_getLast _ _ _

/-- Witness for C4's amended theorem: offset points 0.32 and 0.42 with
maxPassDepth 0.02 give N = 3 passes. -/
theorem genMultiPassPoints_pass_count_witness :
    (0 : ℚ) < 1/50 ∧
    jsMinList ((([⟨3/10, 0⟩, ⟨2/5, 1⟩] : List DimensionPoint).map
        (fun p => DimensionPoint.mk (p.x + 2 * (1/100)) p.z)).map (·.x)) <
      jsMaxList ((([⟨3/10, 0⟩, ⟨2/5, 1⟩] : List DimensionPoint).map
        (fun p => DimensionPoint.mk (p.x + 2 * (1/100)) p.z)).map (·.x)) ∧
    (genMultiPassPoints (([⟨3/10, 0⟩, ⟨2/5, 1⟩] : List DimensionPoint).map
        (fun p => DimensionPoint.mk (p.x + 2 * (1/100)) p.z))
        (jsMaxList ((([⟨3/10, 0⟩, ⟨2/5, 1⟩] : List DimensionPoint).map
          (fun p => DimensionPoint.mk (p.x + 2 * (1/100)) p.z)).map (·.x))) (1/50)).length =
      (⌈(jsMaxList ((([⟨3/10, 0⟩, ⟨2/5, 1⟩] : List DimensionPoint).map
          (fun p => DimensionPoint.mk (p.x + 2 * (1/100)) p.z)).map (·.x)) -
          jsMinList ((([⟨3/10, 0⟩, ⟨2/5, 1⟩] : List DimensionPoint).map
          (fun p => DimensionPoint.mk (p.x + 2 * (1/100)) p.z)).map (·.x))) /
            (2 * (1/50 : ℚ))⌉).toNat := by
  refine ⟨by norm_num, of_decide_eq_true (by with_unfolding_all rfl), ?_⟩
  exact (genMultiPassPoints_pass_count [⟨3/10, 0⟩, ⟨2/5, 1⟩] (1/100) (1/50)
    (by norm_num) (of_decide_eq_true (by with_unfolding_all rfl))).1


set_option maxRecDepth 8000 in
/-- C8 counterexample: the box-cut command emitted inline by simG75 does
not reset the tracked mode.  From a state in linear mode (as simG75 is
always entered, after contourCycle's entry linear move), the simulated
cycle's text puts the G74 box-cut line first and the very next motion
command elides its mode word: the second line starts with an X word, not
G00 or G01. -/
theorem simG75_boxcut_no_mode_reset_counterexample :
    ((simG75 defaultGlobals [⟨3/10, 0⟩] (1/50) (1/100) (1/500)
        ⟨"01", 1/500, some (JsNum.num (1/2)), none, some (JsNum.num (1/10))⟩).1.splitOn "\n").head? =
      some "G74X0.32Z0I0.02U0F0.002" ∧
    ((simG75 defaultGlobals [⟨3/10, 0⟩] (1/50) (1/100) (1/500)
        ⟨"01", 1/500, some (JsNum.num (1/2)), none, some (JsNum.num (1/10))⟩).1.splitOn "\n").get? 1 =
      some "X0.32Z0" ∧
    "X0.32Z0".startsWith "G00" = false ∧ "X0.32Z0".startsWith "G01" = false :=
  of_decide_eq_true (by with_unfolding_all rfl)

/-- C8 (amended): the box-cut and contour-cut cycle commands emitted by
boxCycle, and by contourCycle under the native-cycle flag, always reset
the tracked last mode to None, and a motion command issued from a
None-mode state always restates its mode word; but the box-cut line
emitted inline by simG75 performs no such reset, so inside the simulated
cycle's text mode-word elision does carry across that cycle command (see
the counterexample). -/
theorem cycleCommands_reset_mode :
    (∀ (g : Globals) (sp ep : DimensionPoint) (fbr feed : ℚ) (c : Option String) (s : EmitState),
      (boxCycle g sp ep fbr feed c s).2.lastGCode = "None")
  ∧ (∀ (g : Globals) (sp : DimensionPoint) (pts : List DimensionPoint) (sid : ℕ)
      (fbr feed : ℚ) (c : Option String) (s : EmitState), g.G75Functional = true →
      (contourCycle g sp pts sid fbr feed c s).2.lastGCode = "None")
  ∧ (∀ (g : Globals) (p : MovePoint) (c : Option String) (s : EmitState),
      s.lastGCode = "None" → allAxesUnchanged p s = false →
      (rapidPosition g p c s).1 = "G00" ++ axisWords g.decimals p s ++ commentText c ++ "\n")
  ∧ (∀ (g : Globals) (p : MovePoint) (f : Option ℚ) (c : Option String) (s : EmitState),
      s.lastGCode = "None" → allAxesUnchanged p s = false →
      (linearInterpolation g p f c s).1 = "G01" ++ axisWords g.decimals p s ++
        (match f with
         | some fe => if fe ≠ s.lastFeed then "F" ++ fmt g.decimals fe else ""
         | none => "") ++ commentText c ++ "\n") := by
  refine ⟨?_, ?_, ?_, ?_⟩
  · intro g sp ep fbr feed c s
    rfl
  · intro g sp pts sid fbr feed c s hflag
    unfold contourCycle
    rw [hflag]
    with_unfolding_all rfl
  · intro g p c s hmode hA
    unfold rapidPosition
    rw [hA, hmode]
    simp
  · intro g p f c s hmode hA
    unfold linearInterpolation
    rw [hA, hmode]
    simp

/-- Witness for C8's amended theorem. -/
theorem cycleCommands_reset_mode_witness :
    (boxCycle defaultGlobals ⟨1/2, 0⟩ ⟨2/5, 1⟩ (1/100) (1/500) none initState).2.lastGCode = "None" ∧
    (contourCycle { defaultGlobals with G75Functional := true } ⟨1/2, 0⟩ [⟨2/5, 1⟩] 100
        (1/100) (1/500) none initState).2.lastGCode = "None" ∧
    (rapidPosition defaultGlobals ⟨some (JsNum.num 1), none, none⟩ none initState).1 =
      "G00" ++ axisWords defaultGlobals.decimals ⟨some (JsNum.num 1), none, none⟩ initState ++
        commentText none ++ "\n" ∧
    (linearInterpolation defaultGlobals ⟨some (JsNum.num 1), none, none⟩ none none initState).1 =
      "G01" ++ axisWords defaultGlobals.decimals ⟨some (JsNum.num 1), none, none⟩ initState ++
        "" ++ commentText none ++ "\n" := by
  refine ⟨cycleCommands_reset_mode.1 defaultGlobals ⟨1/2, 0⟩ ⟨2/5, 1⟩ (1/100) (1/500) none initState,
    cycleCommands_reset_mode.2.1 { defaultGlobals with G75Functional := true } ⟨1/2, 0⟩ [⟨2/5, 1⟩]
      100 (1/100) (1/500) none initState rfl,
    cycleCommands_reset_mode.2.2.1 defaultGlobals ⟨some (JsNum.num 1), none, none⟩ none initState
      rfl (of_decide_eq_true (by with_unfolding_all rfl)),
    ?_⟩
  have h := cycleCommands_reset_mode.2.2.2 defaultGlobals ⟨some (JsNum.num 1), none, none⟩ none
    none initState rfl (of_decide_eq_true (by with_unfolding_all rfl))
  simpa using h


/-- Inserting into the descending sort preserves length. -/
theorem insertDescZ_length (p : DimensionPoint) (l : List DimensionPoint) :
    (insertDescZ p l).length = l.length + 1 := by
  induction l with
  | nil => rfl
  | cons q t ih =>
    unfold insertDescZ
    by_cases h : q.z ≤ p.z
    · rw [if_pos h]
      rfl
    · rw [if_neg h]
      simp [ih]

/-- The descending sort preserves length. -/
theorem sortDescZ_length (l : List DimensionPoint) :
    (sortDescZ l).length = l.length := by
  induction l with
  | nil => rfl
  | cons p t ih =>
    unfold sortDescZ
    rw [insertDescZ_length, ih]
    rfl

/-- The machining-order view has as many points as the design-order
list. -/
theorem mkSection_machiningPoints_length (g : Globals) (pts : List DimensionPoint) :
    (mkSection g pts).machiningPoints.length = pts.length := by
  simp [mkSection, sortDescZ_length]

/-- Every section the segmenter returns is built by the Section
constructor. -/
theorem ipLoop_sections_mk (g : Globals) (orgPts : List DimensionPoint)
    (xs zs : List ℚ) :
    ∀ (fuel i : ℕ) (si : ℚ) (sp : ℚ × ℚ),
      ∀ sec ∈ ipLoop g orgPts xs zs fuel i si sp, ∃ pts, sec = mkSection g pts := by
  intro fuel
  induction fuel with
  | zero =>
    intro i si sp sec hsec
    simp only [ipLoop, List.mem_singleton] at hsec
    exact ⟨_, hsec⟩
  | succ c ih =>
    intro i si sp sec hsec
    simp only [ipLoop, List.mem_cons] at hsec
    rcases hsec with h | h
    · exact ⟨_, h⟩
    · exact ih (i + 1) _ _ sec h

/-- Every section interpolatePoints returns is built by the Section
constructor. -/
theorem interpolatePoints_sections_mk (g : Globals) (xs zs : List ℚ) :
    ∀ sec ∈ interpolatePoints g xs zs, ∃ pts, sec = mkSection g pts := by
  intro sec hsec
  exact ipLoop_sections_mk g _ xs zs _ 0 0 _ sec hsec

/-- Helper: the geometric validation error, exactly as the claim states
it: a section whose maximum diameter exceeds the stock diameter makes
sectionCycle fail with the RangeError message, before any text is
emitted and with no state mutation. -/
theorem sectionCycle_error_of_bad (g : Globals) (stock : ℚ) (sec : Section)
    (sid : ℕ) (s : EmitState) (h : stock < sec.maxDiameter) :
    sectionCycle g stock sec sid s = Except.error rangeErrMsg := by
  unfold sectionCycle
  rw [if_pos h]

/-- Helper: a section that passes the validation and has a nonempty
machining list always yields emitted text. -/
theorem sectionCycle_ok_of_good (g : Globals) (stock : ℚ) (sec : Section)
    (sid : ℕ) (s : EmitState) (h : ¬ stock < sec.maxDiameter)
    (hne : sec.machiningPoints ≠ []) :
    ∃ r, sectionCycle g stock sec sid s = Except.ok r := by
  unfold sectionCycle
  rw [if_neg h]
  cases hm : sec.machiningPoints.head? with
  | none =>
    exact absurd (List.head?_eq_none_iff.mp hm) hne
  | some mp0 =>
    exact ⟨_, rfl⟩

/-- Helper: the section loop surfaces the RangeError message whenever some
section's maximum diameter exceeds the stock diameter, provided the
machining lists are nonempty (as they are for segmenter-built sections on
well-formed input). -/
theorem sectionLoop_error_of_bad (g : Globals) (stock : ℚ) :
    ∀ (secs : List Section) (i : ℕ) (s : EmitState),
      (∀ sec ∈ secs, sec.machiningPoints ≠ []) →
      (∃ sec ∈ secs, stock < sec.maxDiameter) →
      (sectionLoop g stock secs i s).1 = Except.error rangeErrMsg := by
  intro secs
  induction secs with
  | nil =>
    intro i s _ hbad
    simp at hbad
  | cons sec rest ih =>
    intro i s hne hbad
    by_cases hb : stock < sec.maxDiameter
    · simp only [sectionLoop]
      rw [sectionCycle_error_of_bad g stock sec ((i + 1) * 100) s hb]
    · obtain ⟨⟨c, s1⟩, hok⟩ := sectionCycle_ok_of_good g stock sec ((i + 1) * 100) s hb
        (hne sec (List.mem_cons_self sec rest))
      have hbadrest : ∃ sec2 ∈ rest, stock < sec2.maxDiameter := by
        rcases hbad with ⟨sec2, hmem, hlt⟩
        rcases List.mem_cons.mp hmem with rfl | hmem2
        · exact absurd hlt hb
        · exact ⟨sec2, hmem2, hlt⟩
      have hrest := ih (i + 1) s1 (fun sec2 h2 => hne sec2 (List.mem_cons_of_mem sec h2)) hbadrest
      cases h2 : sectionLoop g stock rest (i + 1) s1 with
      | mk e s2 =>
        rw [h2] at hrest
        simp only at hrest
        subst hrest
        simp only [sectionLoop, hok, h2]

/-- C1: a section whose maximum diameter exceeds the stock diameter makes
sectionCycle report the RangeError (before emitting any cutting command
for the section), and when any segmenter-produced section is such, genCode
returns exactly the error message with no program text, discarding the
output of the earlier valid sections.  (The nonempty-points hypothesis
reflects well-formed measured input; an empty section would make the
source crash with a TypeError instead.) -/
theorem sectionCycle_genCode_all_or_nothing :
    (∀ (g : Globals) (stock : ℚ) (sec : Section) (sid : ℕ) (s : EmitState),
      stock < sec.maxDiameter →
      sectionCycle g stock sec sid s = Except.error rangeErrMsg)
  ∧ (∀ (g : Globals) (date : String) (stock : ℚ) (diams : List ℚ)
      (optLocs : Option (List ℚ)) (s : EmitState) (dl ll : List ℚ),
      genCodePrep diams optLocs = Except.ok (dl, ll) →
      (∀ sec ∈ interpolatePoints g dl ll, sec.points ≠ []) →
      (∃ sec ∈ interpolatePoints g dl ll, stock < sec.maxDiameter) →
      (genCode g date stock diams optLocs s).1 = rangeErrMsg) := by
  constructor
  · intro g stock sec sid s h
    exact sectionCycle_error_of_bad g stock sec sid s h
  · intro g date stock diams optLocs s dl ll hprep hptsne hbad
    have hmach : ∀ sec ∈ interpolatePoints g dl ll, sec.machiningPoints ≠ [] := by
      intro sec hsec
      obtain ⟨pts, rfl⟩ := interpolatePoints_sections_mk g dl ll sec hsec
      have hlen := mkSection_machiningPoints_length g pts
      have hpts : (mkSection g pts).points ≠ [] := hptsne _ hsec
      have hpts2 : pts ≠ [] := by
        simpa [mkSection] using hpts
      intro hnil
      rw [hnil] at hlen
      simp only [List.length_nil] at hlen
      exact hpts2 (List.eq_nil_of_length_eq_zero hlen.symm)
    have hloop := sectionLoop_error_of_bad g stock (interpolatePoints g dl ll) 0 s hmach hbad
    cases h2 : sectionLoop g stock (interpolatePoints g dl ll) 0 s with
    | mk e s2 =>
      rw [h2] at hloop
      simp only at hloop
      subst hloop
      simp only [genCode, hprep, h2]

/-- Witness for C1: stock 0.3 against a taper reaching diameter 0.5. -/
theorem sectionCycle_genCode_all_or_nothing_witness :
    ((3 : ℚ)/10 < (mkSection defaultGlobals [⟨2/5, 0⟩]).maxDiameter ∧
      sectionCycle defaultGlobals (3/10) (mkSection defaultGlobals [⟨2/5, 0⟩]) 100 initState =
        Except.error rangeErrMsg) ∧
    (genCode defaultGlobals "1.2.2026" (3/10) [2/5, 1/2] (some [0, 1/2]) initState).1 =
      rangeErrMsg := by
  constructor
  · constructor
    · exact of_decide_eq_true (by with_unfolding_all rfl)
    · exact sectionCycle_genCode_all_or_nothing.1 defaultGlobals (3/10)
        (mkSection defaultGlobals [⟨2/5, 0⟩]) 100 initState
        (of_decide_eq_true (by with_unfolding_all rfl))
  · exact sectionCycle_genCode_all_or_nothing.2 defaultGlobals "1.2.2026" (3/10)
      [2/5, 1/2] (some [0, 1/2]) initState [2/5, 1/2] [0, 1/2]
      (of_decide_eq_true (by with_unfolding_all rfl))
      (of_decide_eq_true (by with_unfolding_all rfl))
      (of_decide_eq_true (by with_unfolding_all rfl))


/-- indexOf misses a value that is not in the list. -/
theorem jsIndexOf_eq_none (l : List ℚ) (v : ℚ) (h : v ∉ l) : jsIndexOf l v = none := by
  induction l with
  | nil => rfl
  | cons a t ih =>
    have ha : ¬ a = v := fun hav => h (hav ▸ List.mem_cons_self a t)
    have ht : v ∉ t := fun hvt => h (List.mem_cons_of_mem a hvt)
    unfold jsIndexOf
    rw [if_neg ha, ih ht]
    rfl

/-- findIndex with the greater-than predicate returns the first index past
the bound. -/
theorem jsFindIdxGt_eq_some (b : ℚ) :
    ∀ (l : List ℚ) (k : ℕ), k < l.length → (∀ j, j < k → ¬ b < l.getD j 0) →
      b < l.getD k 0 → jsFindIdxGt l b = some k := by
  intro l
  induction l with
  | nil =>
    intro k hk
    simp at hk
  | cons a t ih =>
    intro k hk hjs hbk
    cases k with
    | zero =>
      unfold jsFindIdxGt
      rw [if_pos (by simpa using hbk)]
    | succ k2 =>
      have ha : ¬ b < a := by simpa using hjs 0 (Nat.succ_pos k2)
      unfold jsFindIdxGt
      rw [if_neg ha, ih k2 (by simpa using hk)
        (fun j hj => by simpa using hjs (j + 1) (by omega)) (by simpa using hbk)]
      rfl

/-- A strictly ascending list is strictly monotone in its indexed reads. -/
theorem pairwise_getD_lt (l : List ℚ) (h : l.Pairwise (· < ·)) :
    ∀ i j, i < j → j < l.length → l.getD i 0 < l.getD j 0 := by
  intro i j hij hj
  have hi : i < l.length := lt_trans hij hj
  rw [List.getD_eq_getElem l 0 hi, List.getD_eq_getElem l 0 hj]
  exact List.pairwise_iff_getElem.mp h i j hi hj hij

/-- The segmenter's boundary computation, characterized at a boundary
falling strictly between two consecutive measured points: the fractional
index and the linearly interpolated point, whose z is exactly the
boundary. -/
theorem boundaryCalc_interp (xs zs : List ℚ) (b : ℚ) (k : ℕ)
    (hpw : zs.Pairwise (· < ·)) (hk : k < zs.length) (hk1 : 1 ≤ k)
    (hlo : zs.getD (k - 1) 0 < b) (hhi : b < zs.getD k 0) :
    boundaryCalc xs zs b =
      (((k : ℚ) - 1) + (b - zs.getD (k - 1) 0) / (zs.getD k 0 - zs.getD (k - 1) 0),
       (xs.getD (k - 1) 0 +
          ((b - zs.getD (k - 1) 0) / (zs.getD k 0 - zs.getD (k - 1) 0)) *
            (xs.getD k 0 - xs.getD (k - 1) 0),
        b)) := by
  have hz12 : zs.getD (k - 1) 0 < zs.getD k 0 := lt_trans hlo hhi
  have hnotmem : b ∉ zs := by
    intro hm
    obtain ⟨j, hj, hjb⟩ := List.mem_iff_getElem.mp hm
    have hjb2 : zs.getD j 0 = b := by
      rw [List.getD_eq_getElem zs 0 hj]
      exact hjb
    rcases Nat.lt_or_ge j k with hjk | hjk
    · have hjle : zs.getD j 0 ≤ zs.getD (k - 1) 0 := by
        rcases Nat.lt_or_ge j (k - 1) with hj2 | hj2
        · exact le_of_lt (pairwise_getD_lt zs hpw j (k - 1) hj2 (by omega))
        · have : j = k - 1 := by omega
          rw [this]
      linarith
    · have hkle : zs.getD k 0 ≤ zs.getD j 0 := by
        rcases Nat.lt_or_ge k j with hj2 | hj2
        · exact le_of_lt (pairwise_getD_lt zs hpw k j hj2 hj)
        · have : j = k := by omega
          rw [this]
      linarith
  have hidx := jsIndexOf_eq_none zs b hnotmem
  have hfind : jsFindIdxGt zs b = some k := by
    apply jsFindIdxGt_eq_some b zs k hk _ hhi
    intro j hj
    have hjle : zs.getD j 0 ≤ zs.getD (k - 1) 0 := by
      rcases Nat.lt_or_ge j (k - 1) with hj2 | hj2
      · exact le_of_lt (pairwise_getD_lt zs hpw j (k - 1) hj2 (by omega))
      · have : j = k - 1 := by omega
        rw [this]
    intro hbj
    linarith
  have hf0 : 0 < (b - zs.getD (k - 1) 0) / (zs.getD k 0 - zs.getD (k - 1) 0) :=
    div_pos (by linarith) (by linarith)
  have hf1 : (b - zs.getD (k - 1) 0) / (zs.getD k 0 - zs.getD (k - 1) 0) < 1 := by
    rw [div_lt_one (by linarith)]
    linarith
  have hmod : jsMod1 (((k : ℚ) - 1) +
      (b - zs.getD (k - 1) 0) / (zs.getD k 0 - zs.getD (k - 1) 0)) =
      (b - zs.getD (k - 1) 0) / (zs.getD k 0 - zs.getD (k - 1) 0) := by
    have h1k : (1 : ℚ) ≤ (k : ℚ) := by exact_mod_cast hk1
    have hv0 : (0 : ℚ) ≤ ((k : ℚ) - 1) +
        (b - zs.getD (k - 1) 0) / (zs.getD k 0 - zs.getD (k - 1) 0) := by linarith
    have hcast : ((k : ℚ) - 1) +
        (b - zs.getD (k - 1) 0) / (zs.getD k 0 - zs.getD (k - 1) 0) =
        (((k : ℤ) - 1 : ℤ) : ℚ) +
        (b - zs.getD (k - 1) 0) / (zs.getD k 0 - zs.getD (k - 1) 0) := by
      push_cast
      ring
    unfold jsMod1 jsTrunc
    rw [if_pos hv0, hcast, Int.floor_int_add,
      Int.floor_eq_zero_iff.mpr ⟨le_of_lt hf0, hf1⟩]
    push_cast
    ring
  simp only [boundaryCalc, hidx, hfind]
  rw [hmod]
  have hne : zs.getD k 0 - zs.getD (k - 1) 0 ≠ 0 := ne_of_gt (by linarith)
  simp only [Prod.mk.injEq, true_and, eq_self_iff_true]
  rw [div_mul_cancel₀ _ hne]
  ring

/-- C3: for a boundary falling strictly between two measured points, the
segmenter synthesizes the boundary point by linear interpolation: the
fractional index is (k - 1) plus fraction = (b - z(k-1)) / (z(k) -
z(k-1)), the synthesized x is x(k-1) + fraction times (x(k) - x(k-1)),
and the synthesized z is exactly the boundary; in particular the measured
points (x 0.30, z 0) and (x 0.40, z 2.0) with section length 1.0 yield
sections whose shared synthesized boundary point is (x 0.35, z 1.0). -/
theorem boundary_interpolation :
    (∀ (xs zs : List ℚ) (b : ℚ) (k : ℕ),
      zs.Pairwise (· < ·) → k < zs.length → 1 ≤ k →
      zs.getD (k - 1) 0 < b → b < zs.getD k 0 →
      boundaryCalc xs zs b =
        (((k : ℚ) - 1) + (b - zs.getD (k - 1) 0) / (zs.getD k 0 - zs.getD (k - 1) 0),
         (xs.getD (k - 1) 0 +
            ((b - zs.getD (k - 1) 0) / (zs.getD k 0 - zs.getD (k - 1) 0)) *
              (xs.getD k 0 - xs.getD (k - 1) 0),
          b)))
  ∧ (interpolatePoints defaultGlobals [3/10, 2/5] [0, 2]).map
      (fun sec => sec.points.map (fun p => (p.x, p.z))) =
      [[((3 : ℚ)/10, (0 : ℚ)), (7/20, 1)], [((7 : ℚ)/20, (0 : ℚ)), (2/5, 1)]] := by
  constructor
  · intro xs zs b k hpw hk hk1 hlo hhi
    exact boundaryCalc_interp xs zs b k hpw hk hk1 hlo hhi
  · exact of_decide_eq_true (by with_unfolding_all rfl)

/-- Witness for C3's general formula: boundary 1 between the measured
points (0.30, 0) and (0.40, 2). -/
theorem boundary_interpolation_witness :
    boundaryCalc [3/10, 2/5] [0, 2] 1 =
      (((1 : ℚ) - 1) +
        ((1 : ℚ) - ([0, 2] : List ℚ).getD 0 0) / (([0, 2] : List ℚ).getD 1 0 - ([0, 2] : List ℚ).getD 0 0),
       (([3/10, 2/5] : List ℚ).getD 0 0 +
          (((1 : ℚ) - ([0, 2] : List ℚ).getD 0 0) /
            (([0, 2] : List ℚ).getD 1 0 - ([0, 2] : List ℚ).getD 0 0)) *
            (([3/10, 2/5] : List ℚ).getD 1 0 - ([3/10, 2/5] : List ℚ).getD 0 0),
        1)) := by
  have h := boundary_interpolation.1 [3/10, 2/5] [0, 2] 1 1
    (of_decide_eq_true (by with_unfolding_all rfl))
    (by decide) (by decide)
    (of_decide_eq_true (by with_unfolding_all rfl))
    (of_decide_eq_true (by with_unfolding_all rfl))
  simpa using h


/-- rapidPosition never changes the recorded positions. -/
theorem rapidPosition_pos3 (g : Globals) (p : MovePoint) (c : Option String)
    (s : EmitState) : pos3 (rapidPosition g p c s).2 = pos3 s := by
  unfold rapidPosition
  split <;> rfl

/-- linearInterpolation never changes the recorded positions. -/
theorem linearInterpolation_pos3 (g : Globals) (p : MovePoint) (f : Option ℚ)
    (c : Option String) (s : EmitState) :
    pos3 (linearInterpolation g p f c s).2 = pos3 s := by
  unfold linearInterpolation
  split <;> rfl

/-- The taper path loop never changes the recorded positions. -/
theorem foldl_taperStep_pos3 (g : Globals) (feed : ℚ) :
    ∀ (pts : List MovePoint) (acc : String × EmitState),
      pos3 (pts.foldl (taperStep g feed) acc).2 = pos3 acc.2 := by
  intro pts
  induction pts with
  | nil => intro acc; rfl
  | cons p t ih =>
    intro acc
    rw [List.foldl_cons, ih]
    show pos3 (linearInterpolation g p (some feed) none acc.2).2 = pos3 acc.2
    exact linearInterpolation_pos3 g p (some feed) none acc.2

/-- basicTaper never changes the recorded positions. -/
theorem basicTaper_pos3 (g : Globals) (points : List MovePoint) (feed : ℚ)
    (s : EmitState) : pos3 (basicTaper g points feed s).2 = pos3 s := by
  unfold basicTaper
  rw [rapidPosition_pos3, linearInterpolation_pos3, foldl_taperStep_pos3]

/-- One simulated pass never changes the recorded positions. -/
theorem simG75Pass_pos3 (g : Globals) (maxDiam F : ℚ) (origZ : Option JsNum)
    (acc : String × EmitState) (pass : List DimensionPoint) :
    pos3 (simG75Pass g maxDiam F origZ acc pass).2 = pos3 acc.2 := by
  unfold simG75Pass
  rw [rapidPosition_pos3, linearInterpolation_pos3, basicTaper_pos3]

/-- The simulated pass loop never changes the recorded positions. -/
theorem foldl_simG75Pass_pos3 (g : Globals) (maxDiam F : ℚ) (origZ : Option JsNum) :
    ∀ (passes : List (List DimensionPoint)) (acc : String × EmitState),
      pos3 (passes.foldl (simG75Pass g maxDiam F origZ) acc).2 = pos3 acc.2 := by
  intro passes
  induction passes with
  | nil => intro acc; rfl
  | cons p t ih =>
    intro acc
    rw [List.foldl_cons, ih, simG75Pass_pos3]

/-- simG75 never changes the recorded positions. -/
theorem simG75_pos3 (g : Globals) (points : List DimensionPoint) (I U F : ℚ)
    (s : EmitState) : pos3 (simG75 g points I U F s).2 = pos3 s := by
  unfold simG75
  rw [linearInterpolation_pos3, foldl_simG75Pass_pos3]

/-- contourCycle never changes the recorded positions. -/
theorem contourCycle_pos3 (g : Globals) (startPoint : DimensionPoint)
    (points : List DimensionPoint) (subroutineID : ℕ) (fbr feed : ℚ)
    (c : Option String) (s : EmitState) :
    pos3 (contourCycle g startPoint points subroutineID fbr feed c s).2 = pos3 s := by
  unfold contourCycle
  split
  · exact linearInterpolation_pos3 g startPoint.getMovePoint (some feed)
      (some "Beginning G75 contour cycle") s
  · exact (simG75_pos3 g points (g.depthsMax / 2) fbr feed _).trans
      (linearInterpolation_pos3 g startPoint.getMovePoint (some feed) _ s)


/-- A motion to a point with a present x can never be elided when no x
position is known. -/
theorem allAxesUnchanged_false (p : MovePoint) (s : EmitState)
    (hx : p.x.isSome) (hpx : s.posX = none) : allAxesUnchanged p s = false := by
  obtain ⟨v, hv⟩ := Option.isSome_iff_exists.mp hx
  unfold allAxesUnchanged
  rw [hv, hpx]
  cases v <;> simp [jsStrictEq]

/-- The axis words depend on the state only through the recorded
positions. -/
theorem axisWords_congr (d : ℕ) (p : MovePoint) (s t : EmitState)
    (hx : s.posX = t.posX) (hy : s.posY = t.posY) (hz : s.posZ = t.posZ) :
    axisWords d p s = axisWords d p t := by
  unfold axisWords
  rw [hx, hy, hz]

/-- A linear move with a present x, issued from two states that agree on
the recorded positions (x unknown), on the pending feed, and are both
outside linear mode, produces identical text and identical resulting
states. -/
theorem linearInterpolation_congr (g : Globals) (p : MovePoint) (f : Option ℚ)
    (c : Option String) (s t : EmitState)
    (hxp : p.x.isSome)
    (hsx : s.posX = none) (htx : t.posX = none)
    (hy : s.posY = t.posY) (hz : s.posZ = t.posZ)
    (hgs : s.lastGCode ≠ "01") (hgt : t.lastGCode ≠ "01")
    (hf : s.lastFeed = t.lastFeed) :
    linearInterpolation g p f c s = linearInterpolation g p f c t := by
  have hAs := allAxesUnchanged_false p s hxp hsx
  have hAt := allAxesUnchanged_false p t hxp htx
  have hAW := axisWords_congr g.decimals p s t (hsx.trans htx.symm) hy hz
  unfold linearInterpolation
  rw [hAs, hAt, if_pos hgs, if_pos hgt, hAW, hf]
  simp only [Bool.false_eq_true, if_false, Prod.mk.injEq, EmitState.mk.injEq,
    eq_self_iff_true, true_and, and_true]
  exact ⟨hsx.trans htx.symm, hy, hz⟩

/-- A rapid move with a present x and no known x position always takes the
emitting branch: the resulting state records rapid mode and a cleared
feed, and nothing else changes. -/
theorem rapidPosition_write_state (g : Globals) (p : MovePoint)
    (c : Option String) (s : EmitState) (hx : p.x.isSome) (hpx : s.posX = none) :
    (rapidPosition g p c s).2 = { s with lastGCode := "00", lastFeed := -1 } := by
  have hA := allAxesUnchanged_false p s hx hpx
  unfold rapidPosition
  rw [hA]
  simp

/-- sectionCycle depends on the incoming state only through the recorded
positions (x unknown), the pending feed, and whether linear mode is
active; two admissible states produce identical results, because the
cycle's first emitted move (to the pull reference point, whose x is always
present) fully overwrites the mode and feed. -/
theorem sectionCycle_congr (g : Globals) (stock : ℚ) (sec : Section)
    (sid : ℕ) (s t : EmitState)
    (hsx : s.posX = none) (htx : t.posX = none)
    (hy : s.posY = t.posY) (hz : s.posZ = t.posZ)
    (hgs : s.lastGCode ≠ "01") (hgt : t.lastGCode ≠ "01")
    (hf : s.lastFeed = t.lastFeed) :
    sectionCycle g stock sec sid s = sectionCycle g stock sec sid t := by
  unfold sectionCycle
  by_cases hb : stock < sec.maxDiameter
  · rw [if_pos hb, if_pos hb]
  · rw [if_neg hb, if_neg hb]
    cases hm : sec.machiningPoints.head? with
    | none => simp only [hm]
    | some mp0 =>
      simp only [hm]
      rw [linearInterpolation_congr g
        ⟨some (JsNum.num (mp0.x + g.xClearance)), none, some (JsNum.num mp0.z)⟩
        none none s t rfl hsx htx hy hz hgs hgt hf]

/-- The final state of a successful sectionCycle: positions unchanged (and
so still unknown), rapid mode recorded, feed cleared — the section always
ends with the retract rapid, which always emits because no x position is
ever known. -/
theorem sectionCycle_ok_state (g : Globals) (stock : ℚ) (sec : Section)
    (sid : ℕ) (s : EmitState) (c : String) (t : EmitState)
    (hpx : s.posX = none)
    (h : sectionCycle g stock sec sid s = Except.ok (c, t)) :
    pos3 t = pos3 s ∧ t.lastGCode = "00" ∧ t.lastFeed = -1 := by
  unfold sectionCycle at h
  by_cases hb : stock < sec.maxDiameter
  · rw [if_pos hb] at h
    exact absurd h (by simp)
  · rw [if_neg hb] at h
    cases hm : sec.machiningPoints.head? with
    | none =>
      rw [hm] at h
      simp at h
    | some mp0 =>
      simp only [hm, Except.ok.injEq, Prod.mk.injEq] at h
      obtain ⟨-, ht⟩ := h
      have hchain : pos3 (basicTaper g (sec.machiningPoints.map DimensionPoint.getMovePoint)
          g.feed (contourCycle g
            (DimensionPoint.mk (stock + g.xClearance) (sec.length - g.stickout + g.zClearance))
            sec.machiningPoints sid (g.depthsMax / 4) g.feed none
            (linearInterpolation g
              ⟨some (JsNum.num (stock + g.xClearance)), none,
               some (JsNum.num (sec.length - g.stickout + g.zClearance))⟩ none none
              (linearInterpolation g
                ⟨some (JsNum.num (mp0.x + g.xClearance)), none, some (JsNum.num mp0.z)⟩
                none none s).2).2).2).2 = pos3 s := by
        rw [basicTaper_pos3, contourCycle_pos3, linearInterpolation_pos3,
          linearInterpolation_pos3]
      have hx6 : (basicTaper g (sec.machiningPoints.map DimensionPoint.getMovePoint)
          g.feed (contourCycle g
            (DimensionPoint.mk (stock + g.xClearance) (sec.length - g.stickout + g.zClearance))
            sec.machiningPoints sid (g.depthsMax / 4) g.feed none
            (linearInterpolation g
              ⟨some (JsNum.num (stock + g.xClearance)), none,
               some (JsNum.num (sec.length - g.stickout + g.zClearance))⟩ none none
              (linearInterpolation g
                ⟨some (JsNum.num (mp0.x + g.xClearance)), none, some (JsNum.num mp0.z)⟩
                none none s).2).2).2).2.posX = none := by
        have h1 := congrArg Prod.fst hchain
        simpa [pos3, hpx] using h1
      rw [← ht, rapidPosition_write_state g
        ⟨some (JsNum.num (stock + g.xClearance)), none, some (JsNum.num g.zClearance)⟩
        none _ rfl hx6]
      refine ⟨?_, rfl, rfl⟩
      show pos3 _ = pos3 s
      exact hchain


/-- The section loop's emitted text (or error) is the same from two
admissible incoming states: the first section's first move overwrites the
differing mode and feed. -/
theorem sectionLoop_congr (g : Globals) (stock : ℚ) :
    ∀ (secs : List Section) (i : ℕ) (s t : EmitState),
      s.posX = none → t.posX = none → s.posY = t.posY → s.posZ = t.posZ →
      s.lastGCode ≠ "01" → t.lastGCode ≠ "01" → s.lastFeed = t.lastFeed →
      (sectionLoop g stock secs i s).1 = (sectionLoop g stock secs i t).1 := by
  intro secs
  cases secs with
  | nil =>
    intro i s t _ _ _ _ _ _ _
    rfl
  | cons sec rest =>
    intro i s t hsx htx hy hz hgs hgt hf
    have hcongr := sectionCycle_congr g stock sec ((i + 1) * 100) s t hsx htx hy hz hgs hgt hf
    cases hsc : sectionCycle g stock sec ((i + 1) * 100) t with
    | error m =>
      rw [hsc] at hcongr
      simp only [sectionLoop, hcongr, hsc]
    | ok cs =>
      rw [hsc] at hcongr
      simp only [sectionLoop, hcongr, hsc]

/-- The admissible-state invariant survives the whole section loop: the
positions stay unknown, the final mode is never linear, and the feed ends
cleared. -/
theorem sectionLoop_state (g : Globals) (stock : ℚ) :
    ∀ (secs : List Section) (i : ℕ) (s : EmitState),
      pos3 s = (none, none, none) → s.lastGCode ≠ "01" → s.lastFeed = -1 →
      (pos3 (sectionLoop g stock secs i s).2 = (none, none, none) ∧
        (sectionLoop g stock secs i s).2.lastGCode ≠ "01" ∧
        (sectionLoop g stock secs i s).2.lastFeed = -1) := by
  intro secs
  induction secs with
  | nil =>
    intro i s hp hg hf
    exact ⟨hp, hg, hf⟩
  | cons sec rest ih =>
    intro i s hp hg hf
    have hsx : s.posX = none := by
      have h1 := congrArg Prod.fst hp
      simpa [pos3] using h1
    cases hsc : sectionCycle g stock sec ((i + 1) * 100) s with
    | error m =>
      simp only [sectionLoop, hsc]
      exact ⟨hp, hg, hf⟩
    | ok cs =>
      obtain ⟨c1, t1⟩ := cs
      obtain ⟨hq, hq00, hqf⟩ := sectionCycle_ok_state g stock sec ((i + 1) * 100) s c1 t1 hsx hsc
      have ht1 : pos3 t1 = (none, none, none) := hq.trans hp
      have := ih (i + 1) t1 ht1 (by rw [hq00]; decide) hqf
      cases h2 : sectionLoop g stock rest (i + 1) t1 with
      | mk e s2 =>
        rw [h2] at this
        simp only [sectionLoop, hsc, h2]
        cases e with
        | error m => exact this
        | ok body => exact this

/-- genCode's emitted text is the same from two admissible incoming
states. -/
theorem genCode_output_congr (g : Globals) (date : String) (stockDiameter : ℚ)
    (diameterList : List ℚ) (optLocationList : Option (List ℚ))
    (s t : EmitState)
    (hsx : s.posX = none) (htx : t.posX = none)
    (hy : s.posY = t.posY) (hz : s.posZ = t.posZ)
    (hgs : s.lastGCode ≠ "01") (hgt : t.lastGCode ≠ "01")
    (hf : s.lastFeed = t.lastFeed) :
    (genCode g date stockDiameter diameterList optLocationList s).1 =
      (genCode g date stockDiameter diameterList optLocationList t).1 := by
  cases hp : genCodePrep diameterList optLocationList with
  | error m =>
    simp only [genCode, hp]
  | ok dll =>
    obtain ⟨dl, ll⟩ := dll
    have hloop := sectionLoop_congr g stockDiameter (interpolatePoints g dl ll) 0 s t
      hsx htx hy hz hgs hgt hf
    cases h1 : sectionLoop g stockDiameter (interpolatePoints g dl ll) 0 s with
    | mk e1 s1 =>
      cases h2 : sectionLoop g stockDiameter (interpolatePoints g dl ll) 0 t with
      | mk e2 s2 =>
        rw [h1, h2] at hloop
        simp only at hloop
        subst hloop
        simp only [genCode, hp, h1, h2]
        cases e1 with
        | error m => rfl
        | ok body => rfl

/-- The admissible-state invariant survives a whole genCode run from the
initial state. -/
theorem genCode_state (g : Globals) (date : String) (stockDiameter : ℚ)
    (diameterList : List ℚ) (optLocationList : Option (List ℚ)) (s : EmitState)
    (hp : pos3 s = (none, none, none)) (hg : s.lastGCode ≠ "01") (hf : s.lastFeed = -1) :
    pos3 (genCode g date stockDiameter diameterList optLocationList s).2 = (none, none, none) ∧
      (genCode g date stockDiameter diameterList optLocationList s).2.lastGCode ≠ "01" ∧
      (genCode g date stockDiameter diameterList optLocationList s).2.lastFeed = -1 := by
  cases hpr : genCodePrep diameterList optLocationList with
  | error m =>
    simp only [genCode, hpr]
    exact ⟨hp, hg, hf⟩
  | ok dll =>
    obtain ⟨dl, ll⟩ := dll
    have hloop := sectionLoop_state g stockDiameter (interpolatePoints g dl ll) 0 s hp hg hf
    cases h1 : sectionLoop g stockDiameter (interpolatePoints g dl ll) 0 s with
    | mk e1 s1 =>
      rw [h1] at hloop
      simp only [genCode, hpr, h1]
      cases e1 with
      | error m => exact hloop
      | ok body => exact hloop

/-- C7: for every fixed input, two successive genCode calls produce
identical output text: the first call is made from the module's initial
emitter state, the second from whatever state the first left behind.  The
generation date is a parameter here, fixed across the two calls, which is
exactly the claim's exclusion of the generation-date header comment; the
leaked state can differ from the initial one only in the tracked mode and
feed, and the program's first emitted move overwrites both before any
text depends on them. -/
theorem genCode_idempotent_output (g : Globals) (date : String)
    (stockDiameter : ℚ) (diameterList : List ℚ) (optLocationList : Option (List ℚ)) :
    (genCode g date stockDiameter diameterList optLocationList
        (genCode g date stockDiameter diameterList optLocationList initState).2).1 =
      (genCode g date stockDiameter diameterList optLocationList initState).1 := by
  obtain ⟨hp, hg, hf⟩ := genCode_state g date stockDiameter diameterList optLocationList
    initState rfl (by decide) rfl
  have hsx : (genCode g date stockDiameter diameterList optLocationList initState).2.posX = none := by
    have h1 := congrArg Prod.fst hp
    simpa [pos3] using h1
  have hsy : (genCode g date stockDiameter diameterList optLocationList initState).2.posY = none := by
    have h1 := congrArg (fun q => q.2.1) hp
    simpa [pos3] using h1
  have hsz : (genCode g date stockDiameter diameterList optLocationList initState).2.posZ = none := by
    have h1 := congrArg (fun q => q.2.2) hp
    simpa [pos3] using h1
  exact genCode_output_congr g date stockDiameter diameterList optLocationList
    (genCode g date stockDiameter diameterList optLocationList initState).2 initState
    hsx rfl (by rw [hsy]; rfl) (by rw [hsz]; rfl) hg (by decide) (by rw [hf]; rfl)


/-! ### List utilities for the segmentation theorem -/

/-- The fold underlying the spread max is an upper bound of its seed. -/
theorem foldr_max_seed_le (l : List ℚ) (b : ℚ) : b ≤ l.foldr max b := by
  induction l with
  | nil => exact le_refl b
  | cons a t ih => exact le_trans ih (le_max_right a (t.foldr max b))

/-- The fold underlying the spread max bounds every element. -/
theorem foldr_max_mem_le (l : List ℚ) (b : ℚ) : ∀ x ∈ l, x ≤ l.foldr max b := by
  induction l with
  | nil => intro x hx; simp at hx
  | cons a t ih =>
    intro x hx
    rcases List.mem_cons.mp hx with rfl | hx2
    · exact le_max_left x (t.foldr max b)
    · exact le_trans (ih x hx2) (le_max_right a (t.foldr max b))

/-- The fold underlying the spread max is the seed or an element. -/
theorem foldr_max_cases (l : List ℚ) (b : ℚ) : l.foldr max b = b ∨ l.foldr max b ∈ l := by
  induction l with
  | nil => exact Or.inl rfl
  | cons a t ih =>
    rcases max_choice a (t.foldr max b) with h | h
    · exact Or.inr (by rw [List.foldr_cons, h]; exact List.mem_cons_self a t)
    · rcases ih with h2 | h2
      · exact Or.inl (by rw [List.foldr_cons, h, h2])
      · exact Or.inr (by rw [List.foldr_cons, h]; exact List.mem_cons_of_mem a h2)

/-- The spread max of a nonempty list is the unique upper bound attained. -/
theorem jsMaxList_eq_of (l : List ℚ) (m : ℚ) (hmem : m ∈ l)
    (hub : ∀ x ∈ l, x ≤ m) : jsMaxList l = m := by
  unfold jsMaxList
  apply le_antisymm
  · rcases foldr_max_cases l (l.headD 0) with h | h
    · rw [h]
      cases l with
      | nil => simp at hmem
      | cons a t => exact hub a (List.mem_cons_self a t)
    · exact hub _ h
  · exact foldr_max_mem_le l (l.headD 0) m hmem

/-- Every element is bounded by the spread max. -/
theorem le_jsMaxList (l : List ℚ) (x : ℚ) (hx : x ∈ l) : x ≤ jsMaxList l :=
  foldr_max_mem_le l (l.headD 0) x hx

/-- Dual fold facts for the spread min. -/
theorem foldr_min_seed_le (l : List ℚ) (b : ℚ) : l.foldr min b ≤ b := by
  induction l with
  | nil => exact le_refl b
  | cons a t ih => exact le_trans (min_le_right a (t.foldr min b)) ih

/-- The spread min bounds every element from below. -/
theorem foldr_min_le_mem (l : List ℚ) (b : ℚ) : ∀ x ∈ l, l.foldr min b ≤ x := by
  induction l with
  | nil => intro x hx; simp at hx
  | cons a t ih =>
    intro x hx
    rcases List.mem_cons.mp hx with rfl | hx2
    · exact min_le_left x (t.foldr min b)
    · exact le_trans (min_le_right a (t.foldr min b)) (ih x hx2)

/-- The spread min is the seed or an element. -/
theorem foldr_min_cases (l : List ℚ) (b : ℚ) : l.foldr min b = b ∨ l.foldr min b ∈ l := by
  induction l with
  | nil => exact Or.inl rfl
  | cons a t ih =>
    rcases min_choice a (t.foldr min b) with h | h
    · exact Or.inr (by rw [List.foldr_cons, h]; exact List.mem_cons_self a t)
    · rcases ih with h2 | h2
      · exact Or.inl (by rw [List.foldr_cons, h, h2])
      · exact Or.inr (by rw [List.foldr_cons, h]; exact List.mem_cons_of_mem a h2)

/-- The spread min of a nonempty list is the unique lower bound attained. -/
theorem jsMinList_eq_of (l : List ℚ) (m : ℚ) (hmem : m ∈ l)
    (hlb : ∀ x ∈ l, m ≤ x) : jsMinList l = m := by
  unfold jsMinList
  apply le_antisymm
  · exact foldr_min_le_mem l (l.headD 0) m hmem
  · rcases foldr_min_cases l (l.headD 0) with h | h
    · rw [h]
      cases l with
      | nil => simp at hmem
      | cons a t => exact hlb a (List.mem_cons_self a t)
    · exact hlb _ h

/-- Counting survives filtering when the element passes the filter. -/
theorem count_filter_pos {α : Type} [DecidableEq α] (l : List α) (p : α → Bool)
    (b : α) (hb : p b = true) : (l.filter p).count b = l.count b := by
  induction l with
  | nil => rfl
  | cons a t ih =>
    by_cases ha : p a = true
    · rw [List.filter_cons_of_pos ha, List.count_cons, List.count_cons, ih]
    · rw [List.filter_cons_of_neg (by simpa using ha), List.count_cons, ih]
      have : ¬ a = b := fun h => ha (h ▸ hb)
      simp [this]

/-- An element failing the filter is not counted in the filtered list. -/
theorem count_filter_neg {α : Type} [DecidableEq α] (l : List α) (p : α → Bool)
    (b : α) (hb : p b = false) : (l.filter p).count b = 0 := by
  rw [List.count_eq_zero]
  intro hmem
  have := List.of_mem_filter hmem
  rw [hb] at this
  exact Bool.false_ne_true this

/-- In a duplicate-free list a member is counted exactly once. -/
theorem count_eq_one_of_nodup_mem {α : Type} [DecidableEq α] (l : List α) (a : α)
    (hn : l.Nodup) (h : a ∈ l) : l.count a = 1 := by
  have h1 : 0 < l.count a := List.count_pos_iff.mpr h
  have h2 : l.count a ≤ 1 := List.nodup_iff_count_le_one.mp hn a
  omega

/-- A slice whose index window matches a threshold window on a list is the
corresponding filter: this is how the segmenter's index-based slice is
reconciled with the value-based description of a section's points. -/
theorem jsSlice_eq_filter (lo hi : ℚ) :
    ∀ (l : List DimensionPoint) (a b : ℕ),
      (∀ (j : ℕ) (hj : j < l.length), j < a → (l.get ⟨j, hj⟩).z < lo) →
      (∀ (j : ℕ) (hj : j < l.length), a ≤ j → j < b → lo ≤ (l.get ⟨j, hj⟩).z ∧ (l.get ⟨j, hj⟩).z ≤ hi) →
      (∀ (j : ℕ) (hj : j < l.length), b ≤ j → hi < (l.get ⟨j, hj⟩).z) →
      jsSlice l a b = l.filter (fun p => decide (lo ≤ p.z) && decide (p.z ≤ hi)) := by
  intro l
  induction l with
  | nil =>
    intro a b _ _ _
    simp [jsSlice]
  | cons p t ih =>
    intro a b h1 h2 h3
    cases a with
    | zero =>
      cases b with
      | zero =>
        have hp : hi < p.z := h3 0 (Nat.succ_pos t.length) (Nat.zero_le 0)
        have hfp : (decide (lo ≤ p.z) && decide (p.z ≤ hi)) = false := by
          simp only [Bool.and_eq_false_iff, decide_eq_false_iff_not, not_le]
          exact Or.inr hp
        rw [List.filter_cons, if_neg (by simp [hfp])]
        have htail := ih 0 0
          (fun j hj hja => absurd hja (Nat.not_lt_zero j))
          (fun j hj hja hjb => absurd hjb (Nat.not_lt_zero j))
          (fun j hj _ => h3 (j + 1) (Nat.succ_lt_succ hj) (Nat.zero_le _))
        have hslice : jsSlice t 0 0 = [] := by
          unfold jsSlice
          simp
        rw [hslice] at htail
        unfold jsSlice
        simp [← htail]
      | succ b2 =>
        have hp := h2 0 (Nat.succ_pos t.length) (Nat.le_refl 0) (Nat.succ_pos b2)
        have hfp : (decide (lo ≤ p.z) && decide (p.z ≤ hi)) = true := by
          simp only [Bool.and_eq_true, decide_eq_true_eq]
          exact hp
        rw [List.filter_cons, if_pos hfp]
        have htail := ih 0 b2
          (fun j hj hja => absurd hja (Nat.not_lt_zero j))
          (fun j hj hja hjb => h2 (j + 1) (Nat.succ_lt_succ hj) (Nat.zero_le _) (Nat.succ_lt_succ hjb))
          (fun j hj hjb => h3 (j + 1) (Nat.succ_lt_succ hj) (Nat.succ_le_succ hjb))
        rw [← htail]
        unfold jsSlice
        simp only [List.drop_zero, Nat.sub_zero, List.take_succ_cons]
    | succ a2 =>
      have hp : p.z < lo := h1 0 (Nat.succ_pos t.length) (Nat.succ_pos a2)
      have hfp : (decide (lo ≤ p.z) && decide (p.z ≤ hi)) = false := by
        simp only [Bool.and_eq_false_iff, decide_eq_false_iff_not, not_le]
        exact Or.inl hp
      rw [List.filter_cons, if_neg (by simp [hfp])]
      have htail := ih a2 (b - 1)
        (fun j hj hja => h1 (j + 1) (Nat.succ_lt_succ hj) (Nat.succ_lt_succ hja))
        (fun j hj hja hjb => h2 (j + 1) (Nat.succ_lt_succ hj) (Nat.succ_le_succ hja) (by omega))
        (fun j hj hjb => h3 (j + 1) (Nat.succ_lt_succ hj) (by omega))
      rw [← htail]
      unfold jsSlice
      simp only [List.drop_succ_cons]
      congr 1
      omega

/-- The sum of a zero-one indicator over an initial range, one hot
index. -/
theorem sum_indicator_single (n a : ℕ) (f : ℕ → ℕ) (ha : a < n)
    (h : ∀ i, i < n → f i = if i = a then 1 else 0) :
    ((List.range n).map f).sum = 1 := by
  induction n with
  | zero => omega
  | succ m ih =>
    rw [List.range_succ, List.map_append, List.sum_append]
    by_cases ham : a = m
    · have hzero : ((List.range m).map f).sum = 0 := by
        have : ∀ i ∈ List.range m, f i = 0 := by
          intro i hi
          have him := List.mem_range.mp hi
          rw [h i (by omega)]
          simp [show ¬ i = a by omega]
        rw [List.sum_eq_zero]
        intro x hx
        obtain ⟨i, hi, rfl⟩ := List.mem_map.mp hx
        exact this i hi
      simp only [List.map_cons, List.map_nil, List.sum_cons, List.sum_nil]
      rw [hzero, h m (by omega), if_pos ham.symm]
      omega
    · have ham2 : a < m := by omega
      simp only [List.map_cons, List.map_nil, List.sum_cons, List.sum_nil]
      rw [ih ham2 (fun i hi => h i (by omega)), h m (by omega),
        if_neg (show ¬ m = a from fun hc => ham hc.symm)]
      omega

/-- The sum of a zero-one indicator over an initial range, two hot
indices. -/
theorem sum_indicator_double (n a b : ℕ) (f : ℕ → ℕ) (hab : a ≠ b)
    (ha : a < n) (hb : b < n)
    (h : ∀ i, i < n → f i = if i = a ∨ i = b then 1 else 0) :
    ((List.range n).map f).sum = 2 := by
  induction n with
  | zero => omega
  | succ m ih =>
    rw [List.range_succ, List.map_append, List.sum_append]
    by_cases ham : a = m
    · have hbm : b < m := by omega
      have hone : ((List.range m).map f).sum = 1 := by
        apply sum_indicator_single m b _ hbm
        intro i hi
        rw [h i (by omega)]
        have : (i = a ∨ i = b) ↔ i = b := by omega
        simp [this]
      simp only [List.map_cons, List.map_nil, List.sum_cons, List.sum_nil]
      rw [hone, h m (by omega), if_pos (Or.inl ham.symm)]
      omega
    · by_cases hbm : b = m
      · have ham2 : a < m := by omega
        have hone : ((List.range m).map f).sum = 1 := by
          apply sum_indicator_single m a _ ham2
          intro i hi
          rw [h i (by omega)]
          have : (i = a ∨ i = b) ↔ i = a := by omega
          simp [this]
        simp only [List.map_cons, List.map_nil, List.sum_cons, List.sum_nil]
        rw [hone, h m (by omega), if_pos (Or.inr hbm.symm)]
        omega
      · have hsum := ih (by omega) (by omega) (fun i hi => h i (by omega))
        simp only [List.map_cons, List.map_nil, List.sum_cons, List.sum_nil]
        rw [hsum, h m (by omega), if_neg (show ¬ (m = a ∨ m = b) by omega)]
        omega


/-- indexOf finds the first strictly-equal element. -/
theorem jsIndexOf_eq_some (v : ℚ) :
    ∀ (l : List ℚ) (m : ℕ), m < l.length → l.getD m 0 = v →
      (∀ j, j < m → l.getD j 0 ≠ v) → jsIndexOf l v = some m := by
  intro l
  induction l with
  | nil =>
    intro m hm
    simp at hm
  | cons a t ih =>
    intro m hm hv hjs
    cases m with
    | zero =>
      unfold jsIndexOf
      rw [if_pos (by simpa using hv)]
    | succ m2 =>
      have ha : ¬ a = v := by simpa using hjs 0 (Nat.succ_pos m2)
      unfold jsIndexOf
      rw [if_neg ha, ih m2 (by simpa using hm) (by simpa using hv)
        (fun j hj => by simpa using hjs (j + 1) (by omega))]
      rfl

/-- What a successful findIndex search reports. -/
theorem jsFindIdxGt_some_spec (b : ℚ) :
    ∀ (l : List ℚ) (k : ℕ), jsFindIdxGt l b = some k →
      k < l.length ∧ b < l.getD k 0 ∧ ∀ j, j < k → ¬ b < l.getD j 0 := by
  intro l
  induction l with
  | nil =>
    intro k hk
    simp [jsFindIdxGt] at hk
  | cons a t ih =>
    intro k hk
    unfold jsFindIdxGt at hk
    by_cases ha : b < a
    · rw [if_pos ha] at hk
      obtain rfl : (0 : ℕ) = k := by simpa using hk
      refine ⟨Nat.succ_pos t.length, by simpa using ha, ?_⟩
      intro j hj
      omega
    · rw [if_neg ha] at hk
      cases h2 : jsFindIdxGt t b with
      | none =>
        rw [h2] at hk
        simp at hk
      | some k2 =>
        rw [h2] at hk
        obtain rfl : k2 + 1 = k := by simpa using hk
        obtain ⟨hl, hv, hjs⟩ := ih k2 h2
        refine ⟨by simpa using hl, by simpa using hv, ?_⟩
        intro j hj
        cases j with
        | zero => simpa using ha
        | succ j2 =>
          have := hjs j2 (by omega)
          simpa using this

/-- findIndex succeeds when some element passes the bound. -/
theorem jsFindIdxGt_isSome (b x : ℚ) :
    ∀ (l : List ℚ), x ∈ l → b < x → (jsFindIdxGt l b).isSome := by
  intro l
  induction l with
  | nil =>
    intro hx
    simp at hx
  | cons a t ih =>
    intro hx hbx
    unfold jsFindIdxGt
    by_cases ha : b < a
    · rw [if_pos ha]
      rfl
    · rw [if_neg ha]
      rcases List.mem_cons.mp hx with rfl | hx2
      · exact absurd hbx ha
      · have := ih hx2 hbx
        cases h2 : jsFindIdxGt t b with
        | none => rw [h2] at this; simp at this
        | some k => simp

/-- The fractional part of a whole index is zero. -/
theorem jsMod1_natCast (m : ℕ) : jsMod1 ((m : ℕ) : ℚ) = 0 := by
  unfold jsMod1 jsTrunc
  rw [if_pos (by positivity)]
  simp

/-- The ceiling of a whole index, as a natural number. -/
theorem ceil_toNat_natCast (m : ℕ) : (⌈((m : ℕ) : ℚ)⌉).toNat = m := by
  rw [Int.ceil_natCast]
  exact Int.toNat_natCast m

/-- The floor of a whole index, as a natural number. -/
theorem floor_toNat_natCast (m : ℕ) : (⌊((m : ℕ) : ℚ)⌋).toNat = m := by
  rw [Int.floor_natCast]
  exact Int.toNat_natCast m

/-- The fractional part of a fractional index strictly between whole
indices. -/
theorem jsMod1_frac (k : ℕ) (f : ℚ) (hk1 : 1 ≤ k) (hf0 : 0 < f) (hf1 : f < 1) :
    jsMod1 ((k : ℚ) - 1 + f) = f := by
  have h1k : (1 : ℚ) ≤ (k : ℚ) := by exact_mod_cast hk1
  have hv0 : (0 : ℚ) ≤ (k : ℚ) - 1 + f := by linarith
  have hcast : (k : ℚ) - 1 + f = (((k : ℤ) - 1 : ℤ) : ℚ) + f := by
    push_cast
    ring
  unfold jsMod1 jsTrunc
  rw [if_pos hv0, hcast, Int.floor_int_add,
    Int.floor_eq_zero_iff.mpr ⟨le_of_lt hf0, hf1⟩]
  push_cast
  ring

/-- The ceiling of a fractional index strictly between whole indices. -/
theorem ceil_toNat_frac (k : ℕ) (f : ℚ) (_hk1 : 1 ≤ k) (hf0 : 0 < f) (hf1 : f < 1) :
    (⌈(k : ℚ) - 1 + f⌉).toNat = k := by
  have h : ⌈(k : ℚ) - 1 + f⌉ = (k : ℤ) := by
    rw [Int.ceil_eq_iff]
    constructor
    · push_cast
      linarith
    · push_cast
      linarith
  rw [h]
  exact Int.toNat_natCast k

/-- The floor of a fractional index strictly between whole indices. -/
theorem floor_toNat_frac (k : ℕ) (f : ℚ) (hk1 : 1 ≤ k) (hf0 : 0 < f) (hf1 : f < 1) :
    (⌊(k : ℚ) - 1 + f⌋).toNat = k - 1 := by
  have h : ⌊(k : ℚ) - 1 + f⌋ = (k : ℤ) - 1 := by
    rw [Int.floor_eq_iff]
    constructor
    · push_cast
      linarith
    · push_cast
      linarith
  rw [h]
  omega

/-- A default-valued index read at a valid index is a member. -/
theorem getD_mem_of_lt (l : List ℚ) (j : ℕ) (hj : j < l.length) :
    l.getD j 0 ∈ l := by
  rw [List.getD_eq_getElem l 0 hj]
  exact List.getElem_mem hj

/-- Full characterization of the boundary computation at a boundary below
the last measured point: the rounded-up and rounded-down versions of its
fractional index delimit exactly the measured points at or past the
boundary (respectively at or before it), the boundary point's z is exactly
the boundary, and the fractional index is whole exactly when a measured
point sits on the boundary. -/
theorem boundaryCalc_full (xs zs : List ℚ) (hpw : zs.Pairwise (· < ·))
    (hn : 1 ≤ zs.length) (b : ℚ)
    (hlow : zs.getD 0 0 ≤ b) (hhigh : b < zs.getD (zs.length - 1) 0) :
    ∃ a h : ℕ,
      (⌈(boundaryCalc xs zs b).1⌉.toNat = a) ∧
      ((⌊(boundaryCalc xs zs b).1⌋).toNat = h) ∧
      ((boundaryCalc xs zs b).2.2 = b) ∧
      (b ∈ zs → jsMod1 (boundaryCalc xs zs b).1 = 0) ∧
      (b ∉ zs → jsMod1 (boundaryCalc xs zs b).1 ≠ 0) ∧
      a < zs.length ∧ h < zs.length ∧
      (∀ j, j < a → zs.getD j 0 < b) ∧
      (∀ j, a ≤ j → j < zs.length → b ≤ zs.getD j 0) ∧
      (∀ j, j ≤ h → j < zs.length → zs.getD j 0 ≤ b) ∧
      (∀ j, h < j → j < zs.length → b < zs.getD j 0) := by
  by_cases hmem : b ∈ zs
  · obtain ⟨m, hm, hbm⟩ := List.mem_iff_getElem.mp hmem
    have hbm2 : zs.getD m 0 = b := by
      rw [List.getD_eq_getElem zs 0 hm]
      exact hbm
    have hidx : jsIndexOf zs b = some m := by
      apply jsIndexOf_eq_some b zs m hm hbm2
      intro j hj
      have := pairwise_getD_lt zs hpw j m hj hm
      rw [hbm2] at this
      exact ne_of_lt this
    have hbc : boundaryCalc xs zs b = ((m : ℚ), (xs.getD m 0, zs.getD m 0)) := by
      unfold boundaryCalc
      rw [hidx]
    refine ⟨m, m, ?_, ?_, ?_, ?_, ?_, hm, hm, ?_, ?_, ?_, ?_⟩
    · rw [hbc]
      exact ceil_toNat_natCast m
    · rw [hbc]
      exact floor_toNat_natCast m
    · rw [hbc]
      exact hbm2
    · intro _
      rw [hbc]
      exact jsMod1_natCast m
    · intro hnot
      exact absurd hmem hnot
    · intro j hj
      have := pairwise_getD_lt zs hpw j m hj hm
      rw [hbm2] at this
      exact this
    · intro j hmj hj
      rcases Nat.lt_or_ge m j with h2 | h2
      · exact le_of_lt (hbm2 ▸ pairwise_getD_lt zs hpw m j h2 hj)
      · have : j = m := by omega
        rw [this, hbm2]
    · intro j hjm hj
      rcases Nat.lt_or_ge j m with h2 | h2
      · exact le_of_lt (hbm2 ▸ pairwise_getD_lt zs hpw j m h2 hm)
      · have : j = m := by omega
        rw [this, hbm2]
    · intro j hmj hj
      exact hbm2 ▸ pairwise_getD_lt zs hpw m j hmj hj
  · have hlow2 : zs.getD 0 0 < b := by
      rcases lt_or_eq_of_le hlow with h2 | h2
      · exact h2
      · exact absurd (h2 ▸ getD_mem_of_lt zs _ (by omega) : b ∈ zs) hmem
    have hlast : zs.getD (zs.length - 1) 0 ∈ zs := getD_mem_of_lt zs _ (by omega)
    have hsome := jsFindIdxGt_isSome b (zs.getD (zs.length - 1) 0) zs hlast hhigh
    obtain ⟨k, hk⟩ := Option.isSome_iff_exists.mp hsome
    obtain ⟨hklen, hkgt, hkleast⟩ := jsFindIdxGt_some_spec b zs k hk
    have hk1 : 1 ≤ k := by
      cases k with
      | zero => exact absurd hkgt (by simpa using not_lt_of_lt hlow2)
      | succ k2 => omega
    have hklo : zs.getD (k - 1) 0 < b := by
      have hle : ¬ b < zs.getD (k - 1) 0 := hkleast (k - 1) (by omega)
      have hne2 : zs.getD (k - 1) 0 ≠ b :=
        fun hc => hmem (hc ▸ getD_mem_of_lt zs _ (by omega))
      rcases lt_trichotomy (zs.getD (k - 1) 0) b with h2 | h2 | h2
      · exact h2
      · exact absurd h2 hne2
      · exact absurd h2 hle
    have hbc := boundaryCalc_interp xs zs b k hpw hklen hk1 hklo hkgt
    have hf0 : 0 < (b - zs.getD (k - 1) 0) / (zs.getD k 0 - zs.getD (k - 1) 0) :=
      div_pos (by linarith) (by linarith)
    have hf1 : (b - zs.getD (k - 1) 0) / (zs.getD k 0 - zs.getD (k - 1) 0) < 1 := by
      rw [div_lt_one (by linarith)]
      linarith
    refine ⟨k, k - 1, ?_, ?_, ?_, ?_, ?_, hklen, by omega, ?_, ?_, ?_, ?_⟩
    · rw [hbc]
      exact ceil_toNat_frac k _ hk1 hf0 hf1
    · rw [hbc]
      exact floor_toNat_frac k _ hk1 hf0 hf1
    · rw [hbc]
    · intro hc
      exact absurd hc hmem
    · intro _
      rw [hbc]
      show jsMod1 ((k : ℚ) - 1 + _) ≠ 0
      rw [jsMod1_frac k _ hk1 hf0 hf1]
      exact ne_of_gt hf0
    · intro j hj
      have hle : ¬ b < zs.getD j 0 := hkleast j hj
      have hne2 : zs.getD j 0 ≠ b := fun hc => hmem (hc ▸ getD_mem_of_lt zs _ (by omega))
      rcases lt_trichotomy (zs.getD j 0) b with h2 | h2 | h2
      · exact h2
      · exact absurd h2 hne2
      · exact absurd h2 hle
    · intro j hkj hj
      rcases Nat.lt_or_ge k j with h2 | h2
      · exact le_of_lt (lt_trans hkgt (pairwise_getD_lt zs hpw k j h2 hj))
      · have : j = k := by omega
        rw [this]
        exact le_of_lt hkgt
    · intro j hjk hj
      have hle : ¬ b < zs.getD j 0 := hkleast j (by omega)
      exact le_of_not_lt hle
    · intro j hjk hj
      rcases Nat.lt_or_ge k j with h2 | h2
      · exact lt_trans hkgt (pairwise_getD_lt zs hpw k j h2 hj)
      · have : j = k := by omega
        rw [this]
        exact hkgt


/-- The length of organizedPoints. -/
theorem organizedPoints_length (xs zs : List ℚ) :
    (organizedPoints xs zs).length = xs.length := by
  simp [organizedPoints]

/-- The entries of organizedPoints pair the coordinate reads. -/
theorem organizedPoints_get (xs zs : List ℚ) (j : ℕ)
    (hj : j < (organizedPoints xs zs).length) :
    (organizedPoints xs zs).get ⟨j, hj⟩ = ⟨xs.getD j 0, zs.getD j 0⟩ := by
  simp [organizedPoints]

/-- With strictly increasing z-coordinates organizedPoints has no
duplicate entries. -/
theorem organizedPoints_nodup (xs zs : List ℚ) (hlen : xs.length = zs.length)
    (hpw : zs.Pairwise (· < ·)) : (organizedPoints xs zs).Nodup := by
  apply List.Nodup.map_on _ (List.nodup_range _)
  intro a ha b hb hfab
  have hza : zs.getD a 0 = zs.getD b 0 := congrArg DimensionPoint.z hfab
  have ha2 : a < zs.length := hlen ▸ List.mem_range.mp ha
  have hb2 : b < zs.length := hlen ▸ List.mem_range.mp hb
  rcases lt_trichotomy a b with h | h | h
  · exact absurd hza (ne_of_lt (pairwise_getD_lt zs hpw a b h hb2))
  · exact h
  · exact absurd hza.symm (ne_of_lt (pairwise_getD_lt zs hpw b a h ha2))

/-- Each measured point is an entry of organizedPoints. -/
theorem mem_organizedPoints (xs zs : List ℚ) (j : ℕ) (hj : j < xs.length) :
    (⟨xs.getD j 0, zs.getD j 0⟩ : DimensionPoint) ∈ organizedPoints xs zs := by
  unfold organizedPoints
  exact List.mem_map.mpr ⟨j, List.mem_range.mpr hj, rfl⟩

/-- Undoing a section's z offset recovers the original points. -/
theorem map_offset_undo (c : ℚ) (l : List DimensionPoint) :
    (l.map (offsetPt c)).map (fun p => DimensionPoint.mk p.x (p.z + c)) = l := by
  induction l with
  | nil => rfl
  | cons p t ih =>
    simp only [List.map_cons, offsetPt, sub_add_cancel, ih]

/-- The boundary data a non-final body iteration hands to the next
iteration is the boundary computation at the next boundary. -/
theorem sectionBody_snd (g : Globals) (orgPts : List DimensionPoint) (xs zs : List ℚ)
    (i : ℕ) (si : ℚ) (sp : ℚ × ℚ) :
    (sectionBody g orgPts xs zs i si sp).2 =
      boundaryCalc xs zs (((i : ℚ) + 1) * g.stickout) := rfl

/-- Closed form of the segmenter's loop: when the running start data equal
the boundary computation at the current boundary, the loop produces the
indexed non-final sections followed by the indexed final section. -/
theorem ipLoop_closed (g : Globals) (orgPts : List DimensionPoint) (xs zs : List ℚ) :
    ∀ (c i : ℕ),
      ipLoop g orgPts xs zs c i (boundaryCalc xs zs ((i : ℚ) * g.stickout)).1
        (boundaryCalc xs zs ((i : ℚ) * g.stickout)).2 =
      (List.range' i c).map (fun m => closedSec g orgPts xs zs m) ++
        [closedFinal g orgPts xs zs (i + c)] := by
  intro c
  induction c with
  | zero =>
    intro i
    simp [ipLoop, closedFinal]
  | succ c2 ih =>
    intro i
    have hcast : (((i + 1 : ℕ) : ℚ)) * g.stickout = ((i : ℚ) + 1) * g.stickout := by
      push_cast
      ring
    have hnext := ih (i + 1)
    rw [hcast, ← sectionBody_snd g orgPts xs zs i
      (boundaryCalc xs zs ((i : ℚ) * g.stickout)).1
      (boundaryCalc xs zs ((i : ℚ) * g.stickout)).2] at hnext
    rw [show i + 1 + c2 = i + (c2 + 1) from by omega] at hnext
    show ipLoop g orgPts xs zs (c2 + 1) i _ _ = _
    unfold ipLoop
    dsimp only
    rw [hnext]
    show closedSec g orgPts xs zs i :: _ = _
    rw [List.range'_succ, List.map_cons]
    simp only [List.cons_append]

/-- interpolatePoints in closed form: with the first measured z at the
origin, the initial loop arguments coincide with the boundary computation
at boundary zero, so the segmenter's output is the indexed sections. -/
theorem interpolatePoints_closed (g : Globals) (xs zs : List ℚ)
    (hne : zs ≠ []) (h0 : zs.getD 0 0 = 0) :
    interpolatePoints g xs zs =
      (List.range' 0 ((⌈jsMaxList zs / g.stickout⌉).toNat - 1)).map
        (fun m => closedSec g (organizedPoints xs zs) xs zs m) ++
      [closedFinal g (organizedPoints xs zs) xs zs
        ((⌈jsMaxList zs / g.stickout⌉).toNat - 1)] := by
  have hbc0 : boundaryCalc xs zs (((0 : ℕ) : ℚ) * g.stickout) =
      (0, (xs.getD 0 0, zs.getD 0 0)) := by
    cases zs with
    | nil => exact absurd rfl hne
    | cons a t =>
      have ha : a = 0 := by simpa using h0
      subst ha
      simp [boundaryCalc, jsIndexOf]
  have hclosed := ipLoop_closed g (organizedPoints xs zs) xs zs
    ((⌈jsMaxList zs / g.stickout⌉).toNat - 1) 0
  rw [hbc0] at hclosed
  unfold interpolatePoints organizedPoints
  simpa [organizedPoints] using hclosed


/-- For strictly ascending z-values the spread max is the last entry. -/
theorem jsMaxList_ascending (zs : List ℚ) (hpw : zs.Pairwise (· < ·)) (hne : zs ≠ []) :
    jsMaxList zs = zs.getD (zs.length - 1) 0 := by
  apply jsMaxList_eq_of
  · exact getD_mem_of_lt zs _ (by have := List.length_pos.mpr hne; omega)
  · intro x hx
    obtain ⟨j, hj, hget⟩ := List.mem_iff_getElem.mp hx
    have hx2 : zs.getD j 0 = x := by
      rw [List.getD_eq_getElem zs 0 hj]
      exact hget
    rcases Nat.lt_or_ge j (zs.length - 1) with hjl | hjl
    · exact hx2 ▸ le_of_lt (pairwise_getD_lt zs hpw j (zs.length - 1) hjl (by omega))
    · have hje : j = zs.length - 1 := by omega
      rw [← hx2, hje]

/-- With at least two measured points starting at the origin the total
length is positive. -/
theorem maxZ_pos (zs : List ℚ) (hpw : zs.Pairwise (· < ·)) (h2 : 2 ≤ zs.length)
    (h0 : zs.getD 0 0 = 0) : 0 < jsMaxList zs := by
  rw [jsMaxList_ascending zs hpw (by intro hc; rw [hc] at h2; simp at h2)]
  calc (0 : ℚ) = zs.getD 0 0 := h0.symm
  _ < zs.getD (zs.length - 1) 0 :=
      pairwise_getD_lt zs hpw 0 (zs.length - 1) (by omega) (by omega)

/-- Measured z-values are nonnegative when the first is the origin. -/
theorem getD_nonneg_of (zs : List ℚ) (hpw : zs.Pairwise (· < ·))
    (h0 : zs.getD 0 0 = 0) (j : ℕ) (hj : j < zs.length) : 0 ≤ zs.getD j 0 := by
  cases j with
  | zero => rw [h0]
  | succ j2 =>
    have hlt := pairwise_getD_lt zs hpw 0 (j2 + 1) (by omega) hj
    rw [h0] at hlt
    exact le_of_lt hlt

/-- Measured z-values are bounded by the spread max. -/
theorem getD_le_maxZ (zs : List ℚ) (j : ℕ) (hj : j < zs.length) :
    zs.getD j 0 ≤ jsMaxList zs :=
  le_jsMaxList zs _ (getD_mem_of_lt zs j hj)

/-- The section count is at least one. -/
theorem numSections_pos (g : Globals) (zs : List ℚ) (hL : 0 < g.stickout)
    (hmax : 0 < jsMaxList zs) : 1 ≤ (⌈jsMaxList zs / g.stickout⌉).toNat := by
  have := Int.ceil_pos.mpr (div_pos hmax hL)
  omega

/-- The measured span fits inside the counted sections. -/
theorem maxZ_le_nL (g : Globals) (zs : List ℚ) (hL : 0 < g.stickout)
    (hmax : 0 < jsMaxList zs) :
    jsMaxList zs ≤ ((⌈jsMaxList zs / g.stickout⌉).toNat : ℚ) * g.stickout := by
  have h1 := Int.le_ceil (jsMaxList zs / g.stickout)
  have hge : 0 ≤ ⌈jsMaxList zs / g.stickout⌉ := le_of_lt (Int.ceil_pos.mpr (div_pos hmax hL))
  have hc : (((⌈jsMaxList zs / g.stickout⌉).toNat : ℕ) : ℚ) =
      ((⌈jsMaxList zs / g.stickout⌉ : ℤ) : ℚ) := by
    have h3 : (((⌈jsMaxList zs / g.stickout⌉).toNat : ℤ) : ℚ) =
        ((⌈jsMaxList zs / g.stickout⌉ : ℤ) : ℚ) := by
      rw [Int.toNat_of_nonneg hge]
    push_cast at h3
    exact_mod_cast h3
  rw [hc]
  exact (div_le_iff₀ hL).mp h1

/-- All but the last counted section lie strictly inside the measured
span. -/
theorem nL_sub_lt_maxZ (g : Globals) (zs : List ℚ) (hL : 0 < g.stickout)
    (hmax : 0 < jsMaxList zs) :
    (((⌈jsMaxList zs / g.stickout⌉).toNat : ℚ) - 1) * g.stickout < jsMaxList zs := by
  have h1 := Int.ceil_lt_add_one (jsMaxList zs / g.stickout)
  have hge : 0 ≤ ⌈jsMaxList zs / g.stickout⌉ := le_of_lt (Int.ceil_pos.mpr (div_pos hmax hL))
  have hc : (((⌈jsMaxList zs / g.stickout⌉).toNat : ℕ) : ℚ) =
      ((⌈jsMaxList zs / g.stickout⌉ : ℤ) : ℚ) := by
    have h3 : (((⌈jsMaxList zs / g.stickout⌉).toNat : ℤ) : ℚ) =
        ((⌈jsMaxList zs / g.stickout⌉ : ℤ) : ℚ) := by
      rw [Int.toNat_of_nonneg hge]
    push_cast at h3
    exact_mod_cast h3
  rw [hc]
  have h2 : (((⌈jsMaxList zs / g.stickout⌉ : ℤ) : ℚ)) - 1 < jsMaxList zs / g.stickout := by
    push_cast at h1 ⊢
    linarith
  calc ((((⌈jsMaxList zs / g.stickout⌉ : ℤ) : ℚ)) - 1) * g.stickout
      < (jsMaxList zs / g.stickout) * g.stickout := by
        exact mul_lt_mul_of_pos_right h2 hL
  _ = jsMaxList zs := div_mul_cancel₀ _ (ne_of_gt hL)

/-- Reading a one-element suffix at the length of the prefix. -/
theorem getD_concat {α : Type} (l : List α) (x d : α) (m : ℕ) (hm : m = l.length) :
    (l ++ [x]).getD m d = x := by
  subst hm
  rw [List.getD_eq_getElem _ _ (by simp)]
  rw [List.getElem_append_right (le_refl l.length)]
  simp

/-- The number of sections the segmenter emits. -/
theorem interpolatePoints_length_eq (g : Globals) (xs zs : List ℚ)
    (hne : zs ≠ []) (h0 : zs.getD 0 0 = 0)
    (hn1 : 1 ≤ (⌈jsMaxList zs / g.stickout⌉).toNat) :
    (interpolatePoints g xs zs).length = (⌈jsMaxList zs / g.stickout⌉).toNat := by
  rw [interpolatePoints_closed g xs zs hne h0]
  simp only [List.length_append, List.length_map, List.length_range', List.length_cons,
    List.length_nil]
  omega

/-- Reading a non-final section of the segmenter's output. -/
theorem interpolatePoints_getD_lt (g : Globals) (xs zs : List ℚ)
    (hne : zs ≠ []) (h0 : zs.getD 0 0 = 0) (i : ℕ)
    (hi : i < (⌈jsMaxList zs / g.stickout⌉).toNat - 1) :
    (interpolatePoints g xs zs).getD i (mkSection g []) =
      closedSec g (organizedPoints xs zs) xs zs i := by
  rw [interpolatePoints_closed g xs zs hne h0]
  have hmap : i < (((List.range' 0 ((⌈jsMaxList zs / g.stickout⌉).toNat - 1)).map
      (fun m => closedSec g (organizedPoints xs zs) xs zs m))).length := by
    simpa using hi
  rw [List.getD_eq_getElem _ _ (by simp; omega), List.getElem_append_left hmap,
    List.getElem_map]
  congr 1
  rw [List.getElem_range']
  omega

/-- Reading the final section of the segmenter's output. -/
theorem interpolatePoints_getD_last (g : Globals) (xs zs : List ℚ)
    (hne : zs ≠ []) (h0 : zs.getD 0 0 = 0) :
    (interpolatePoints g xs zs).getD ((⌈jsMaxList zs / g.stickout⌉).toNat - 1)
        (mkSection g []) =
      closedFinal g (organizedPoints xs zs) xs zs
        ((⌈jsMaxList zs / g.stickout⌉).toNat - 1) := by
  rw [interpolatePoints_closed g xs zs hne h0]
  exact getD_concat _ _ _ _ (by simp)

/-- The head of a nonempty prefix. -/
theorem take_head {α : Type} (l : List α) (k : ℕ) (hk : 0 < k) :
    (l.take k).head? = l.head? := by
  cases l <;> cases k <;> simp_all

/-- The first element of a nonempty slice. -/
theorem jsSlice_head (lα : Type) (l : List lα) (a b : ℕ) (hab : a < b)
    (hal : a < l.length) : (jsSlice l a b).head? = some (l.get ⟨a, hal⟩) := by
  unfold jsSlice
  rw [take_head _ _ (by omega), List.head?_drop, List.getElem?_eq_getElem hal]
  rfl

/-- The last element of a slice ending at a valid index. -/
theorem jsSlice_getLast (lα : Type) (l : List lα) (a h : ℕ) (hah : a ≤ h)
    (hl : h < l.length) : (jsSlice l a (h + 1)).getLast? = some (l.get ⟨h, hl⟩) := by
  unfold jsSlice
  rw [show h + 1 - a = (h - a) + 1 from by omega, List.take_succ]
  have hdl : (l.drop a)[h - a]? = some (l.get ⟨h, hl⟩) := by
    rw [List.getElem?_drop, show a + (h - a) = h from by omega,
      List.getElem?_eq_getElem hl]
    rfl
  rw [hdl]
  simp


/-- The point list a non-final body iteration assembles. -/
theorem sectionBody_points (g : Globals) (orgPts : List DimensionPoint) (xs zs : List ℚ)
    (i : ℕ) (si : ℚ) (sp : ℚ × ℚ) :
    (sectionBody g orgPts xs zs i si sp).1.points =
      (if jsMod1 si ≠ 0 then [DimensionPoint.mk sp.1 (sp.2 - (i : ℚ) * g.stickout)] else []) ++
      (jsSlice orgPts (⌈si⌉.toNat)
        ((⌊(boundaryCalc xs zs (((i : ℚ) + 1) * g.stickout)).1⌋).toNat + 1)).map
        (offsetPt ((i : ℚ) * g.stickout)) ++
      (if jsMod1 (boundaryCalc xs zs (((i : ℚ) + 1) * g.stickout)).1 ≠ 0 then
        [DimensionPoint.mk (boundaryCalc xs zs (((i : ℚ) + 1) * g.stickout)).2.1
          ((boundaryCalc xs zs (((i : ℚ) + 1) * g.stickout)).2.2 - (i : ℚ) * g.stickout)]
      else []) := rfl

/-- The point list the final iteration assembles. -/
theorem finalSection_points (g : Globals) (orgPts : List DimensionPoint)
    (i : ℕ) (si : ℚ) (sp : ℚ × ℚ) :
    (finalSection g orgPts i si sp).points =
      (if jsMod1 si ≠ 0 then [DimensionPoint.mk sp.1 (sp.2 - (i : ℚ) * g.stickout)] else []) ++
      (jsSlice orgPts (⌈si⌉.toNat) ((orgPts.length - 1) + 1)).map
        (offsetPt ((i : ℚ) * g.stickout)) := rfl

/-- Decomposition of a non-final section: an optional synthesized start
point at relative z zero, the measured points whose z lies in the
section's absolute window (re-expressed relative to the section), and an
optional synthesized end point at relative z equal to the section length;
the synthesized points appear exactly when no measured point sits on the
corresponding boundary, and an on-boundary measured point pins the slice
ends. -/
theorem closedSec_decomp (g : Globals) (xs zs : List ℚ)
    (hlen : xs.length = zs.length) (h2 : 2 ≤ zs.length)
    (hpw : zs.Pairwise (· < ·)) (h0 : zs.getD 0 0 = 0) (hL : 0 < g.stickout)
    (i : ℕ) (hi : i + 1 ≤ (⌈jsMaxList zs / g.stickout⌉).toNat - 1) :
    ∃ (s e : List DimensionPoint) (a b : ℕ),
      (closedSec g (organizedPoints xs zs) xs zs i).points =
        s ++ (jsSlice (organizedPoints xs zs) a b).map
          (offsetPt ((i : ℚ) * g.stickout)) ++ e ∧
      jsSlice (organizedPoints xs zs) a b =
        (organizedPoints xs zs).filter
          (fun p => decide ((i : ℚ) * g.stickout ≤ p.z) &&
            decide (p.z ≤ ((i : ℚ) + 1) * g.stickout)) ∧
      ((i : ℚ) * g.stickout ∈ zs → s = []) ∧
      ((i : ℚ) * g.stickout ∉ zs → ∃ x, s = [DimensionPoint.mk x 0]) ∧
      (((i : ℚ) + 1) * g.stickout ∈ zs → e = []) ∧
      (((i : ℚ) + 1) * g.stickout ∉ zs → ∃ x, e = [DimensionPoint.mk x g.stickout]) ∧
      (∀ m, m < zs.length → zs.getD m 0 = (i : ℚ) * g.stickout → (a = m ∧ a < b)) ∧
      (∀ m, m < zs.length → zs.getD m 0 = ((i : ℚ) + 1) * g.stickout → (b = m + 1 ∧ a < b)) ∧
      b ≤ (organizedPoints xs zs).length := by
  have hne : zs ≠ [] := by
    intro hc
    rw [hc] at h2
    simp at h2
  have hmax := maxZ_pos zs hpw h2 h0
  have hn1 := numSections_pos g zs hL hmax
  have hmaxeq := jsMaxList_ascending zs hpw hne
  have hnL := nL_sub_lt_maxZ g zs hL hmax
  have hPlen : (organizedPoints xs zs).length = zs.length := by
    rw [organizedPoints_length, hlen]
  have hnat : i + 2 ≤ (⌈jsMaxList zs / g.stickout⌉).toNat := by omega
  have hcast : (i : ℚ) + 2 ≤ ((⌈jsMaxList zs / g.stickout⌉).toNat : ℚ) := by
    exact_mod_cast hnat
  have hb2 : ((i : ℚ) + 1) * g.stickout < jsMaxList zs := by
    have hstep : ((i : ℚ) + 1) * g.stickout ≤
        (((⌈jsMaxList zs / g.stickout⌉).toNat : ℚ) - 1) * g.stickout := by
      apply mul_le_mul_of_nonneg_right _ (le_of_lt hL)
      linarith
    linarith
  have hb1 : (i : ℚ) * g.stickout < jsMaxList zs := by
    nlinarith
  have hb1b2 : (i : ℚ) * g.stickout ≤ ((i : ℚ) + 1) * g.stickout := by nlinarith
  have hb1lo : zs.getD 0 0 ≤ (i : ℚ) * g.stickout := by
    rw [h0]
    positivity
  have hb2lo : zs.getD 0 0 ≤ ((i : ℚ) + 1) * g.stickout := by
    rw [h0]
    positivity
  have hb1hi : (i : ℚ) * g.stickout < zs.getD (zs.length - 1) 0 := hmaxeq ▸ hb1
  have hb2hi : ((i : ℚ) + 1) * g.stickout < zs.getD (zs.length - 1) 0 := hmaxeq ▸ hb2
  obtain ⟨a1, f1, hceil1, hfloor1, hz1, hm1, hnm1, ha1, hf1, hlt1, hge1, hle1, hgt1⟩ :=
    boundaryCalc_full xs zs hpw (by omega) ((i : ℚ) * g.stickout) hb1lo hb1hi
  obtain ⟨a2, f2, hceil2, hfloor2, hz2, hm2, hnm2, ha2, hf2, hlt2, hge2, hle2, hgt2⟩ :=
    boundaryCalc_full xs zs hpw (by omega) (((i : ℚ) + 1) * g.stickout) hb2lo hb2hi
  refine ⟨if jsMod1 (boundaryCalc xs zs ((i : ℚ) * g.stickout)).1 ≠ 0 then
      [DimensionPoint.mk (boundaryCalc xs zs ((i : ℚ) * g.stickout)).2.1
        ((boundaryCalc xs zs ((i : ℚ) * g.stickout)).2.2 - (i : ℚ) * g.stickout)]
    else [],
    if jsMod1 (boundaryCalc xs zs (((i : ℚ) + 1) * g.stickout)).1 ≠ 0 then
      [DimensionPoint.mk (boundaryCalc xs zs (((i : ℚ) + 1) * g.stickout)).2.1
        ((boundaryCalc xs zs (((i : ℚ) + 1) * g.stickout)).2.2 - (i : ℚ) * g.stickout)]
    else [], a1, f2 + 1, ?_, ?_, ?_, ?_, ?_, ?_, ?_, ?_, ?_⟩
  · have hpts := sectionBody_points g (organizedPoints xs zs) xs zs i
      (boundaryCalc xs zs ((i : ℚ) * g.stickout)).1
      (boundaryCalc xs zs ((i : ℚ) * g.stickout)).2
    rw [hceil1, hfloor2] at hpts
    exact hpts
  · apply jsSlice_eq_filter
    · intro j hj hja
      rw [organizedPoints_get]
      exact hlt1 j hja
    · intro j hj hja hjb
      rw [organizedPoints_get]
      have hjz : j < zs.length := by omega
      exact ⟨hge1 j hja hjz, hle2 j (by omega) hjz⟩
    · intro j hj hjb
      rw [organizedPoints_get]
      exact hgt2 j (by omega) (by omega)
  · intro hmem
    rw [if_neg (not_not_intro (hm1 hmem))]
  · intro hmem
    refine ⟨(boundaryCalc xs zs ((i : ℚ) * g.stickout)).2.1, ?_⟩
    rw [if_pos (hnm1 hmem), hz1, sub_self]
  · intro hmem
    rw [if_neg (not_not_intro (hm2 hmem))]
  · intro hmem
    refine ⟨(boundaryCalc xs zs (((i : ℚ) + 1) * g.stickout)).2.1, ?_⟩
    rw [if_pos (hnm2 hmem), hz2]
    have harith : ((i : ℚ) + 1) * g.stickout - (i : ℚ) * g.stickout = g.stickout := by
      ring
    rw [harith]
  · intro m hm hzm
    have ham : a1 = m := by
      rcases lt_trichotomy a1 m with hc | hc | hc
      · have h3 := hge1 a1 (le_refl a1) ha1
        have h4 := pairwise_getD_lt zs hpw a1 m hc hm
        rw [hzm] at h4
        linarith
      · exact hc
      · have h3 := hlt1 m hc
        rw [hzm] at h3
        linarith
    have hmf : m ≤ f2 := by
      by_contra hc
      have h3 := hgt2 m (by omega) hm
      rw [hzm] at h3
      linarith
    exact ⟨ham, by omega⟩
  · intro m hm hzm
    have hfm : f2 = m := by
      rcases lt_trichotomy f2 m with hc | hc | hc
      · have h3 := hgt2 m hc hm
        rw [hzm] at h3
        linarith
      · exact hc
      · have h3 := hle2 f2 (le_refl f2) hf2
        have h4 := pairwise_getD_lt zs hpw m f2 hc hf2
        rw [hzm] at h4
        linarith
    have ham : a1 ≤ m := by
      by_contra hc
      have h3 := hlt1 m (by omega)
      rw [hzm] at h3
      linarith
    exact ⟨by omega, by omega⟩
  · rw [hPlen]
    omega

/-- Decomposition of the final section: an optional synthesized start
point at relative z zero followed by all measured points from the
section's start boundary on, re-expressed relative to the section. -/
theorem closedFinal_decomp (g : Globals) (xs zs : List ℚ)
    (hlen : xs.length = zs.length) (h2 : 2 ≤ zs.length)
    (hpw : zs.Pairwise (· < ·)) (h0 : zs.getD 0 0 = 0) (hL : 0 < g.stickout)
    (i : ℕ) (hi : i ≤ (⌈jsMaxList zs / g.stickout⌉).toNat - 1) :
    ∃ (s : List DimensionPoint) (a : ℕ),
      (closedFinal g (organizedPoints xs zs) xs zs i).points =
        s ++ (jsSlice (organizedPoints xs zs) a (organizedPoints xs zs).length).map
          (offsetPt ((i : ℚ) * g.stickout)) ∧
      jsSlice (organizedPoints xs zs) a (organizedPoints xs zs).length =
        (organizedPoints xs zs).filter
          (fun p => decide ((i : ℚ) * g.stickout ≤ p.z) &&
            decide (p.z ≤ jsMaxList zs)) ∧
      ((i : ℚ) * g.stickout ∈ zs → s = []) ∧
      ((i : ℚ) * g.stickout ∉ zs → ∃ x, s = [DimensionPoint.mk x 0]) ∧
      (∀ m, m < zs.length → zs.getD m 0 = (i : ℚ) * g.stickout → a = m) ∧
      a ≤ zs.length - 1 := by
  have hne : zs ≠ [] := by
    intro hc
    rw [hc] at h2
    simp at h2
  have hmax := maxZ_pos zs hpw h2 h0
  have hn1 := numSections_pos g zs hL hmax
  have hmaxeq := jsMaxList_ascending zs hpw hne
  have hnL := nL_sub_lt_maxZ g zs hL hmax
  have hPlen : (organizedPoints xs zs).length = zs.length := by
    rw [organizedPoints_length, hlen]
  have hcast : (i : ℚ) ≤ ((⌈jsMaxList zs / g.stickout⌉).toNat : ℚ) - 1 := by
    have hnat : i + 1 ≤ (⌈jsMaxList zs / g.stickout⌉).toNat := by omega
    have h3 : (i : ℚ) + 1 ≤ ((⌈jsMaxList zs / g.stickout⌉).toNat : ℚ) := by
      exact_mod_cast hnat
    linarith
  have hb1 : (i : ℚ) * g.stickout < jsMaxList zs := by
    have hstep : (i : ℚ) * g.stickout ≤
        (((⌈jsMaxList zs / g.stickout⌉).toNat : ℚ) - 1) * g.stickout :=
      mul_le_mul_of_nonneg_right hcast (le_of_lt hL)
    linarith
  have hb1lo : zs.getD 0 0 ≤ (i : ℚ) * g.stickout := by
    rw [h0]
    positivity
  have hb1hi : (i : ℚ) * g.stickout < zs.getD (zs.length - 1) 0 := hmaxeq ▸ hb1
  obtain ⟨a1, f1, hceil1, hfloor1, hz1, hm1, hnm1, ha1, hf1, hlt1, hge1, hle1, hgt1⟩ :=
    boundaryCalc_full xs zs hpw (by omega) ((i : ℚ) * g.stickout) hb1lo hb1hi
  refine ⟨if jsMod1 (boundaryCalc xs zs ((i : ℚ) * g.stickout)).1 ≠ 0 then
      [DimensionPoint.mk (boundaryCalc xs zs ((i : ℚ) * g.stickout)).2.1
        ((boundaryCalc xs zs ((i : ℚ) * g.stickout)).2.2 - (i : ℚ) * g.stickout)]
    else [], a1, ?_, ?_, ?_, ?_, ?_, ?_⟩
  · have hpts := finalSection_points g (organizedPoints xs zs) i
      (boundaryCalc xs zs ((i : ℚ) * g.stickout)).1
      (boundaryCalc xs zs ((i : ℚ) * g.stickout)).2
    rw [hceil1] at hpts
    rw [show ((organizedPoints xs zs).length - 1) + 1 = (organizedPoints xs zs).length
      from by rw [hPlen]; omega] at hpts
    exact hpts
  · apply jsSlice_eq_filter
    · intro j hj hja
      rw [organizedPoints_get]
      exact hlt1 j hja
    · intro j hj hja hjb
      rw [organizedPoints_get]
      have hjz : j < zs.length := by omega
      exact ⟨hge1 j hja hjz, getD_le_maxZ zs j hjz⟩
    · intro j hj hjb
      omega
  · intro hmem
    rw [if_neg (not_not_intro (hm1 hmem))]
  · intro hmem
    refine ⟨(boundaryCalc xs zs ((i : ℚ) * g.stickout)).2.1, ?_⟩
    rw [if_pos (hnm1 hmem), hz1, sub_self]
  · intro m hm hzm
    rcases lt_trichotomy a1 m with hc | hc | hc
    · have h3 := hge1 a1 (le_refl a1) ha1
      have h4 := pairwise_getD_lt zs hpw a1 m hc hm
      rw [hzm] at h4
      linarith
    · exact hc
    · have h3 := hlt1 m hc
      rw [hzm] at h3
      linarith
  · by_contra hc
    have h3 := hlt1 (zs.length - 1) (by omega)
    linarith


/-- After undoing the section offset, a non-final section contains a given
measured point exactly when its z lies in the section's absolute window,
and then exactly once. -/
theorem closedSec_count (g : Globals) (xs zs : List ℚ)
    (hlen : xs.length = zs.length) (h2 : 2 ≤ zs.length)
    (hpw : zs.Pairwise (· < ·)) (h0 : zs.getD 0 0 = 0) (hL : 0 < g.stickout)
    (i : ℕ) (hi : i + 1 ≤ (⌈jsMaxList zs / g.stickout⌉).toNat - 1)
    (j : ℕ) (hj : j < zs.length) :
    ((closedSec g (organizedPoints xs zs) xs zs i).points.map
      (fun p => DimensionPoint.mk p.x (p.z + (i : ℚ) * g.stickout))).count
      (DimensionPoint.mk (xs.getD j 0) (zs.getD j 0)) =
    if (i : ℚ) * g.stickout ≤ zs.getD j 0 ∧ zs.getD j 0 ≤ ((i : ℚ) + 1) * g.stickout
    then 1 else 0 := by
  obtain ⟨s, e, a, b, hdec, hfil, hsmem, hsnm, hemem, henm, hpin1, hpin2, hble⟩ :=
    closedSec_decomp g xs zs hlen h2 hpw h0 hL i hi
  have hjmem : zs.getD j 0 ∈ zs := getD_mem_of_lt zs j hj
  rw [hdec, List.map_append, List.map_append, List.count_append, List.count_append]
  have hs0 : ((s.map (fun p => DimensionPoint.mk p.x (p.z + (i : ℚ) * g.stickout))).count
      (DimensionPoint.mk (xs.getD j 0) (zs.getD j 0))) = 0 := by
    rcases Classical.em ((i : ℚ) * g.stickout ∈ zs) with hmem | hmem
    · rw [hsmem hmem]
      rfl
    · obtain ⟨x, hx⟩ := hsnm hmem
      rw [hx]
      rw [List.count_eq_zero]
      intro hc
      simp only [List.map_cons, List.map_nil, List.mem_singleton,
        DimensionPoint.mk.injEq] at hc
      apply hmem
      rw [show (i : ℚ) * g.stickout = zs.getD j 0 from by linarith [hc.2]]
      exact hjmem
  have he0 : ((e.map (fun p => DimensionPoint.mk p.x (p.z + (i : ℚ) * g.stickout))).count
      (DimensionPoint.mk (xs.getD j 0) (zs.getD j 0))) = 0 := by
    rcases Classical.em (((i : ℚ) + 1) * g.stickout ∈ zs) with hmem | hmem
    · rw [hemem hmem]
      rfl
    · obtain ⟨x, hx⟩ := henm hmem
      rw [hx]
      rw [List.count_eq_zero]
      intro hc
      simp only [List.map_cons, List.map_nil, List.mem_singleton,
        DimensionPoint.mk.injEq] at hc
      apply hmem
      rw [show ((i : ℚ) + 1) * g.stickout = zs.getD j 0 from by
        have h5 := hc.2
        ring_nf at h5 ⊢
        linarith]
      exact hjmem
  rw [hs0, he0, map_offset_undo, hfil]
  by_cases hwin : (i : ℚ) * g.stickout ≤ zs.getD j 0 ∧
      zs.getD j 0 ≤ ((i : ℚ) + 1) * g.stickout
  · rw [if_pos hwin]
    rw [count_filter_pos _ _ _ (by simpa using hwin)]
    rw [count_eq_one_of_nodup_mem _ _ (organizedPoints_nodup xs zs hlen hpw)
      (mem_organizedPoints xs zs j (hlen ▸ hj))]
  · rw [if_neg hwin]
    rw [count_filter_neg _ _ _ (by simpa using hwin)]

/-- After undoing the section offset, the final section contains a given
measured point exactly when its z is at least the final boundary, and then
exactly once. -/
theorem closedFinal_count (g : Globals) (xs zs : List ℚ)
    (hlen : xs.length = zs.length) (h2 : 2 ≤ zs.length)
    (hpw : zs.Pairwise (· < ·)) (h0 : zs.getD 0 0 = 0) (hL : 0 < g.stickout)
    (i : ℕ) (hi : i ≤ (⌈jsMaxList zs / g.stickout⌉).toNat - 1)
    (j : ℕ) (hj : j < zs.length) :
    ((closedFinal g (organizedPoints xs zs) xs zs i).points.map
      (fun p => DimensionPoint.mk p.x (p.z + (i : ℚ) * g.stickout))).count
      (DimensionPoint.mk (xs.getD j 0) (zs.getD j 0)) =
    if (i : ℚ) * g.stickout ≤ zs.getD j 0 then 1 else 0 := by
  obtain ⟨s, a, hdec, hfil, hsmem, hsnm, hpin, hale⟩ :=
    closedFinal_decomp g xs zs hlen h2 hpw h0 hL i hi
  have hjmem : zs.getD j 0 ∈ zs := getD_mem_of_lt zs j hj
  rw [hdec, List.map_append, List.count_append]
  have hs0 : ((s.map (fun p => DimensionPoint.mk p.x (p.z + (i : ℚ) * g.stickout))).count
      (DimensionPoint.mk (xs.getD j 0) (zs.getD j 0))) = 0 := by
    rcases Classical.em ((i : ℚ) * g.stickout ∈ zs) with hmem | hmem
    · rw [hsmem hmem]
      rfl
    · obtain ⟨x, hx⟩ := hsnm hmem
      rw [hx]
      rw [List.count_eq_zero]
      intro hc
      simp only [List.map_cons, List.map_nil, List.mem_singleton,
        DimensionPoint.mk.injEq] at hc
      apply hmem
      rw [show (i : ℚ) * g.stickout = zs.getD j 0 from by linarith [hc.2]]
      exact hjmem
  rw [hs0, map_offset_undo, hfil]
  by_cases hwin : (i : ℚ) * g.stickout ≤ zs.getD j 0
  · rw [if_pos hwin]
    rw [count_filter_pos _ _ _ (by
      simp only [Bool.and_eq_true, decide_eq_true_eq]
      exact ⟨hwin, getD_le_maxZ zs j hj⟩)]
    rw [count_eq_one_of_nodup_mem _ _ (organizedPoints_nodup xs zs hlen hpw)
      (mem_organizedPoints xs zs j (hlen ▸ hj))]
  · rw [if_neg hwin]
    rw [count_filter_neg _ _ _ (by
      simp only [Bool.and_eq_false_iff, decide_eq_false_iff_not]
      exact Or.inl hwin)]


/-- A non-final section starts at relative z zero; when a measured point
sits on the start boundary, the start point's diameter is that point's
diameter. -/
theorem closedSec_head (g : Globals) (xs zs : List ℚ)
    (hlen : xs.length = zs.length) (h2 : 2 ≤ zs.length)
    (hpw : zs.Pairwise (· < ·)) (h0 : zs.getD 0 0 = 0) (hL : 0 < g.stickout)
    (i : ℕ) (hi : i + 1 ≤ (⌈jsMaxList zs / g.stickout⌉).toNat - 1) :
    ∃ x, (closedSec g (organizedPoints xs zs) xs zs i).points.head? =
        some (DimensionPoint.mk x 0) ∧
      (∀ m, m < zs.length → zs.getD m 0 = (i : ℚ) * g.stickout → x = xs.getD m 0) := by
  obtain ⟨s, e, a, b, hdec, hfil, hsmem, hsnm, hemem, henm, hpin1, hpin2, hble⟩ :=
    closedSec_decomp g xs zs hlen h2 hpw h0 hL i hi
  have hPlen : (organizedPoints xs zs).length = zs.length := by
    rw [organizedPoints_length, hlen]
  rcases Classical.em ((i : ℚ) * g.stickout ∈ zs) with hmem | hmem
  · obtain ⟨m, hmlt, hmz⟩ := List.mem_iff_getElem.mp hmem
    have hmz2 : zs.getD m 0 = (i : ℚ) * g.stickout := by
      rw [List.getD_eq_getElem zs 0 hmlt]
      exact hmz
    obtain ⟨ham, hab⟩ := hpin1 m hmlt hmz2
    have haP : a < (organizedPoints xs zs).length := by omega
    have hhead := jsSlice_head _ (organizedPoints xs zs) a b hab haP
    refine ⟨xs.getD m 0, ?_, ?_⟩
    · rw [hdec, hsmem hmem, List.nil_append, List.head?_append, List.head?_map,
        hhead, Option.map_some', organizedPoints_get, ham]
      show some (offsetPt ((i : ℚ) * g.stickout)
        (DimensionPoint.mk (xs.getD m 0) (zs.getD m 0))) = _
      simp only [offsetPt]
      rw [hmz2, sub_self]
    · intro m2 hm2 hm2z
      rcases lt_trichotomy m m2 with hc | hc | hc
      · have h3 := pairwise_getD_lt zs hpw m m2 hc hm2
        rw [hmz2, hm2z] at h3
        exact absurd h3 (lt_irrefl _)
      · rw [hc]
      · have h3 := pairwise_getD_lt zs hpw m2 m hc hmlt
        rw [hmz2, hm2z] at h3
        exact absurd h3 (lt_irrefl _)
  · obtain ⟨x, hx⟩ := hsnm hmem
    refine ⟨x, ?_, ?_⟩
    · rw [hdec, hx]
      rfl
    · intro m hm hmz
      exact absurd (hmz ▸ getD_mem_of_lt zs m hm) hmem

/-- The final section starts at relative z zero; when a measured point
sits on its start boundary, the start point's diameter is that point's
diameter. -/
theorem closedFinal_head (g : Globals) (xs zs : List ℚ)
    (hlen : xs.length = zs.length) (h2 : 2 ≤ zs.length)
    (hpw : zs.Pairwise (· < ·)) (h0 : zs.getD 0 0 = 0) (hL : 0 < g.stickout)
    (i : ℕ) (hi : i ≤ (⌈jsMaxList zs / g.stickout⌉).toNat - 1) :
    ∃ x, (closedFinal g (organizedPoints xs zs) xs zs i).points.head? =
        some (DimensionPoint.mk x 0) ∧
      (∀ m, m < zs.length → zs.getD m 0 = (i : ℚ) * g.stickout → x = xs.getD m 0) := by
  obtain ⟨s, a, hdec, hfil, hsmem, hsnm, hpin, hale⟩ :=
    closedFinal_decomp g xs zs hlen h2 hpw h0 hL i hi
  have hPlen : (organizedPoints xs zs).length = zs.length := by
    rw [organizedPoints_length, hlen]
  rcases Classical.em ((i : ℚ) * g.stickout ∈ zs) with hmem | hmem
  · obtain ⟨m, hmlt, hmz⟩ := List.mem_iff_getElem.mp hmem
    have hmz2 : zs.getD m 0 = (i : ℚ) * g.stickout := by
      rw [List.getD_eq_getElem zs 0 hmlt]
      exact hmz
    have ham := hpin m hmlt hmz2
    have haP : a < (organizedPoints xs zs).length := by omega
    have hhead := jsSlice_head _ (organizedPoints xs zs) a
      (organizedPoints xs zs).length haP haP
    refine ⟨xs.getD m 0, ?_, ?_⟩
    · rw [hdec, hsmem hmem, List.nil_append, List.head?_map, hhead,
        Option.map_some', organizedPoints_get, ham]
      simp only [offsetPt]
      rw [hmz2, sub_self]
    · intro m2 hm2 hm2z
      rcases lt_trichotomy m m2 with hc | hc | hc
      · have h3 := pairwise_getD_lt zs hpw m m2 hc hm2
        rw [hmz2, hm2z] at h3
        exact absurd h3 (lt_irrefl _)
      · rw [hc]
      · have h3 := pairwise_getD_lt zs hpw m2 m hc hmlt
        rw [hmz2, hm2z] at h3
        exact absurd h3 (lt_irrefl _)
  · obtain ⟨x, hx⟩ := hsnm hmem
    refine ⟨x, ?_, ?_⟩
    · rw [hdec, hx]
      rfl
    · intro m hm hmz
      exact absurd (hmz ▸ getD_mem_of_lt zs m hm) hmem

/-- A non-final section ends at relative z equal to the section length;
when a measured point sits on the end boundary, the end point's diameter
is that point's diameter. -/
theorem closedSec_last (g : Globals) (xs zs : List ℚ)
    (hlen : xs.length = zs.length) (h2 : 2 ≤ zs.length)
    (hpw : zs.Pairwise (· < ·)) (h0 : zs.getD 0 0 = 0) (hL : 0 < g.stickout)
    (i : ℕ) (hi : i + 1 ≤ (⌈jsMaxList zs / g.stickout⌉).toNat - 1) :
    ∃ x, (closedSec g (organizedPoints xs zs) xs zs i).points.getLast? =
        some (DimensionPoint.mk x g.stickout) ∧
      (∀ m, m < zs.length → zs.getD m 0 = ((i : ℚ) + 1) * g.stickout →
        x = xs.getD m 0) := by
  obtain ⟨s, e, a, b, hdec, hfil, hsmem, hsnm, hemem, henm, hpin1, hpin2, hble⟩ :=
    closedSec_decomp g xs zs hlen h2 hpw h0 hL i hi
  have hPlen : (organizedPoints xs zs).length = zs.length := by
    rw [organizedPoints_length, hlen]
  rcases Classical.em (((i : ℚ) + 1) * g.stickout ∈ zs) with hmem | hmem
  · obtain ⟨m, hmlt, hmz⟩ := List.mem_iff_getElem.mp hmem
    have hmz2 : zs.getD m 0 = ((i : ℚ) + 1) * g.stickout := by
      rw [List.getD_eq_getElem zs 0 hmlt]
      exact hmz
    obtain ⟨hbm, hab⟩ := hpin2 m hmlt hmz2
    have hmP : m < (organizedPoints xs zs).length := by omega
    have hlast := jsSlice_getLast _ (organizedPoints xs zs) a m (by omega) hmP
    have hnn : ((jsSlice (organizedPoints xs zs) a b).map
        (offsetPt ((i : ℚ) * g.stickout))) ≠ [] := by
      intro hc
      rw [List.map_eq_nil_iff] at hc
      rw [hbm] at hc
      rw [hc] at hlast
      simp at hlast
    refine ⟨xs.getD m 0, ?_, ?_⟩
    · rw [hdec, hemem hmem, List.append_nil,
        List.getLast?_append_of_ne_nil _ hnn, List.getLast?_map, hbm, hlast,
        Option.map_some', organizedPoints_get]
      simp only [offsetPt]
      rw [hmz2]
      have harith : ((i : ℚ) + 1) * g.stickout - (i : ℚ) * g.stickout =
          g.stickout := by ring
      rw [harith]
    · intro m2 hm2 hm2z
      rcases lt_trichotomy m m2 with hc | hc | hc
      · have h3 := pairwise_getD_lt zs hpw m m2 hc hm2
        rw [hmz2, hm2z] at h3
        exact absurd h3 (lt_irrefl _)
      · rw [hc]
      · have h3 := pairwise_getD_lt zs hpw m2 m hc hmlt
        rw [hmz2, hm2z] at h3
        exact absurd h3 (lt_irrefl _)
  · obtain ⟨x, hx⟩ := henm hmem
    refine ⟨x, ?_, ?_⟩
    · rw [hdec, hx]
      exact List.getLast?_concat _
    · intro m hm hmz
      exact absurd (hmz ▸ getD_mem_of_lt zs m hm) hmem

/-- The final section ends at the last measured point, whose relative z is
the remaining length. -/
theorem closedFinal_last (g : Globals) (xs zs : List ℚ)
    (hlen : xs.length = zs.length) (h2 : 2 ≤ zs.length)
    (hpw : zs.Pairwise (· < ·)) (h0 : zs.getD 0 0 = 0) (hL : 0 < g.stickout)
    (i : ℕ) (hi : i ≤ (⌈jsMaxList zs / g.stickout⌉).toNat - 1) :
    (closedFinal g (organizedPoints xs zs) xs zs i).points.getLast? =
      some (DimensionPoint.mk (xs.getD (zs.length - 1) 0)
        (jsMaxList zs - (i : ℚ) * g.stickout)) := by
  obtain ⟨s, a, hdec, hfil, hsmem, hsnm, hpin, hale⟩ :=
    closedFinal_decomp g xs zs hlen h2 hpw h0 hL i hi
  have hne : zs ≠ [] := by
    intro hc
    rw [hc] at h2
    simp at h2
  have hPlen : (organizedPoints xs zs).length = zs.length := by
    rw [organizedPoints_length, hlen]
  have hmaxeq := jsMaxList_ascending zs hpw hne
  have hlP : zs.length - 1 < (organizedPoints xs zs).length := by omega
  have hlast := jsSlice_getLast _ (organizedPoints xs zs) a (zs.length - 1)
    (by omega) hlP
  rw [show (zs.length - 1) + 1 = (organizedPoints xs zs).length from by omega] at hlast
  have hnn : ((jsSlice (organizedPoints xs zs) a (organizedPoints xs zs).length).map
      (offsetPt ((i : ℚ) * g.stickout))) ≠ [] := by
    intro hc
    rw [List.map_eq_nil_iff] at hc
    rw [hc] at hlast
    simp at hlast
  rw [hdec, List.getLast?_append_of_ne_nil _ hnn, List.getLast?_map, hlast,
    Option.map_some', organizedPoints_get]
  simp only [offsetPt]
  rw [hmaxeq]

/-- Every point of a non-final section lies between the section's start
and its length. -/
theorem closedSec_bounds (g : Globals) (xs zs : List ℚ)
    (hlen : xs.length = zs.length) (h2 : 2 ≤ zs.length)
    (hpw : zs.Pairwise (· < ·)) (h0 : zs.getD 0 0 = 0) (hL : 0 < g.stickout)
    (i : ℕ) (hi : i + 1 ≤ (⌈jsMaxList zs / g.stickout⌉).toNat - 1) :
    ∀ p ∈ (closedSec g (organizedPoints xs zs) xs zs i).points,
      0 ≤ p.z ∧ p.z ≤ g.stickout := by
  obtain ⟨s, e, a, b, hdec, hfil, hsmem, hsnm, hemem, henm, hpin1, hpin2, hble⟩ :=
    closedSec_decomp g xs zs hlen h2 hpw h0 hL i hi
  intro p hp
  rw [hdec] at hp
  rcases List.mem_append.mp hp with hp2 | hp2
  · rcases List.mem_append.mp hp2 with hp3 | hp3
    · rcases Classical.em ((i : ℚ) * g.stickout ∈ zs) with hmem | hmem
      · rw [hsmem hmem] at hp3
        simp at hp3
      · obtain ⟨x, hx⟩ := hsnm hmem
        rw [hx, List.mem_singleton] at hp3
        rw [hp3]
        exact ⟨le_refl 0, le_of_lt hL⟩
    · obtain ⟨q, hq, hqp⟩ := List.mem_map.mp hp3
      rw [hfil] at hq
      have hqf := List.of_mem_filter hq
      simp only [Bool.and_eq_true, decide_eq_true_eq] at hqf
      rw [← hqp]
      constructor
      · simp only [offsetPt]
        linarith [hqf.1]
      · simp only [offsetPt]
        have h6 : ((i : ℚ) + 1) * g.stickout = (i : ℚ) * g.stickout + g.stickout := by
          ring
        have h5 : q.z ≤ (i : ℚ) * g.stickout + g.stickout := by
          rw [← h6]
          exact hqf.2
        linarith
  · rcases Classical.em (((i : ℚ) + 1) * g.stickout ∈ zs) with hmem | hmem
    · rw [hemem hmem] at hp2
      simp at hp2
    · obtain ⟨x, hx⟩ := henm hmem
      rw [hx, List.mem_singleton] at hp2
      rw [hp2]
      exact ⟨le_of_lt hL, le_refl _⟩

/-- Every point of the final section lies between the section's start and
the remaining length. -/
theorem closedFinal_bounds (g : Globals) (xs zs : List ℚ)
    (hlen : xs.length = zs.length) (h2 : 2 ≤ zs.length)
    (hpw : zs.Pairwise (· < ·)) (h0 : zs.getD 0 0 = 0) (hL : 0 < g.stickout)
    (i : ℕ) (hi : i ≤ (⌈jsMaxList zs / g.stickout⌉).toNat - 1) :
    ∀ p ∈ (closedFinal g (organizedPoints xs zs) xs zs i).points,
      0 ≤ p.z ∧ p.z ≤ jsMaxList zs - (i : ℚ) * g.stickout := by
  obtain ⟨s, a, hdec, hfil, hsmem, hsnm, hpin, hale⟩ :=
    closedFinal_decomp g xs zs hlen h2 hpw h0 hL i hi
  have hmax := maxZ_pos zs hpw h2 h0
  have hn1 := numSections_pos g zs hL hmax
  have hnL := nL_sub_lt_maxZ g zs hL hmax
  have hnat : i + 1 ≤ (⌈jsMaxList zs / g.stickout⌉).toNat := by omega
  have hcast : (i : ℚ) + 1 ≤ ((⌈jsMaxList zs / g.stickout⌉).toNat : ℚ) := by
    exact_mod_cast hnat
  have hb1 : (i : ℚ) * g.stickout < jsMaxList zs := by
    have hstep : (i : ℚ) * g.stickout ≤
        (((⌈jsMaxList zs / g.stickout⌉).toNat : ℚ) - 1) * g.stickout := by
      apply mul_le_mul_of_nonneg_right _ (le_of_lt hL)
      linarith
    linarith
  intro p hp
  rw [hdec] at hp
  rcases List.mem_append.mp hp with hp2 | hp2
  · rcases Classical.em ((i : ℚ) * g.stickout ∈ zs) with hmem | hmem
    · rw [hsmem hmem] at hp2
      simp at hp2
    · obtain ⟨x, hx⟩ := hsnm hmem
      rw [hx, List.mem_singleton] at hp2
      rw [hp2]
      refine ⟨le_refl 0, ?_⟩
      show (0 : ℚ) ≤ jsMaxList zs - (i : ℚ) * g.stickout
      linarith
  · obtain ⟨q, hq, hqp⟩ := List.mem_map.mp hp2
    rw [hfil] at hq
    have hqf := List.of_mem_filter hq
    simp only [Bool.and_eq_true, decide_eq_true_eq] at hqf
    rw [← hqp]
    constructor
    · simp only [offsetPt]
      linarith [hqf.1]
    · simp only [offsetPt]
      linarith [hqf.2]


/-- C2: for every measured point list with at least two points, z strictly
ascending from the origin, and positive section length, the segmenter's
sections exactly tile the measured span once each section's z offset is
undone: there are ceil(maxZ / stickout) sections; each section starts at
its boundary i*L, ends at the next boundary (the final section at maxZ),
and stays inside that span; and every measured point appears with
unmodified diameter in exactly one section — or exactly two when its z is
an interior boundary k*L, and then as the end point of section k-1 and the
start point of section k. -/
theorem segmentation_coverage (g : Globals) (xs zs : List ℚ)
    (hlen : xs.length = zs.length) (hcard : 2 ≤ zs.length)
    (hpw : zs.Pairwise (· < ·)) (h0 : zs.getD 0 0 = 0) (hL : 0 < g.stickout) :
    (interpolatePoints g xs zs).length = (⌈jsMaxList zs / g.stickout⌉).toNat ∧
    (∀ i, i < (⌈jsMaxList zs / g.stickout⌉).toNat →
      ((((interpolatePoints g xs zs).getD i (mkSection g [])).points.map
        (fun p => p.z + (i : ℚ) * g.stickout)).head? = some ((i : ℚ) * g.stickout) ∧
      ((((interpolatePoints g xs zs).getD i (mkSection g [])).points.map
        (fun p => p.z + (i : ℚ) * g.stickout)).getLast? =
        some (if i + 1 < (⌈jsMaxList zs / g.stickout⌉).toNat
          then ((i : ℚ) + 1) * g.stickout else jsMaxList zs)) ∧
      (∀ q ∈ (((interpolatePoints g xs zs).getD i (mkSection g [])).points.map
          (fun p => p.z + (i : ℚ) * g.stickout)),
        (i : ℚ) * g.stickout ≤ q ∧
        q ≤ (if i + 1 < (⌈jsMaxList zs / g.stickout⌉).toNat
          then ((i : ℚ) + 1) * g.stickout else jsMaxList zs)))) ∧
    (∀ j, j < zs.length →
      ((∃ k ∈ Finset.Icc 1 ((⌈jsMaxList zs / g.stickout⌉).toNat - 1),
          zs.getD j 0 = (k : ℚ) * g.stickout) →
        ((List.range (⌈jsMaxList zs / g.stickout⌉).toNat).map
          (fun i => ((((interpolatePoints g xs zs).getD i (mkSection g [])).points.map
            (fun p => DimensionPoint.mk p.x (p.z + (i : ℚ) * g.stickout))).count
            (DimensionPoint.mk (xs.getD j 0) (zs.getD j 0))))).sum = 2) ∧
      ((¬ ∃ k ∈ Finset.Icc 1 ((⌈jsMaxList zs / g.stickout⌉).toNat - 1),
          zs.getD j 0 = (k : ℚ) * g.stickout) →
        ((List.range (⌈jsMaxList zs / g.stickout⌉).toNat).map
          (fun i => ((((interpolatePoints g xs zs).getD i (mkSection g [])).points.map
            (fun p => DimensionPoint.mk p.x (p.z + (i : ℚ) * g.stickout))).count
            (DimensionPoint.mk (xs.getD j 0) (zs.getD j 0))))).sum = 1)) ∧
    (∀ j k, j < zs.length → 1 ≤ k → k < (⌈jsMaxList zs / g.stickout⌉).toNat →
      zs.getD j 0 = (k : ℚ) * g.stickout →
      ((((interpolatePoints g xs zs).getD (k - 1) (mkSection g [])).points.getLast? =
        some (DimensionPoint.mk (xs.getD j 0) g.stickout)) ∧
      (((interpolatePoints g xs zs).getD k (mkSection g [])).points.head? =
        some (DimensionPoint.mk (xs.getD j 0) 0)))) := by
  have hne : zs ≠ [] := by
    intro hc
    rw [hc] at hcard
    simp at hcard
  have hmax := maxZ_pos zs hpw hcard h0
  have hn1 := numSections_pos g zs hL hmax
  have hnL := nL_sub_lt_maxZ g zs hL hmax
  refine ⟨interpolatePoints_length_eq g xs zs hne h0 hn1, ?_, ?_, ?_⟩
  · intro i hi2
    by_cases hif : i < (⌈jsMaxList zs / g.stickout⌉).toNat - 1
    · have hgetD := interpolatePoints_getD_lt g xs zs hne h0 i hif
      obtain ⟨xh, hhead, _⟩ := closedSec_head g xs zs hlen hcard hpw h0 hL i (by omega)
      obtain ⟨xl, hlast, _⟩ := closedSec_last g xs zs hlen hcard hpw h0 hL i (by omega)
      have hbounds := closedSec_bounds g xs zs hlen hcard hpw h0 hL i (by omega)
      refine ⟨?_, ?_, ?_⟩
      · rw [hgetD, List.head?_map, hhead, Option.map_some']
        show some ((0 : ℚ) + (i : ℚ) * g.stickout) = _
        rw [zero_add]
      · rw [hgetD, List.getLast?_map, hlast, Option.map_some', if_pos (by omega)]
        show some (g.stickout + (i : ℚ) * g.stickout) = _
        congr 1
        ring
      · intro q hq
        rw [hgetD] at hq
        obtain ⟨p, hp, rfl⟩ := List.mem_map.mp hq
        obtain ⟨hp0, hpL⟩ := hbounds p hp
        refine ⟨?_, ?_⟩
        · show (i : ℚ) * g.stickout ≤ p.z + (i : ℚ) * g.stickout
          linarith
        · rw [if_pos (by omega)]
          show p.z + (i : ℚ) * g.stickout ≤ ((i : ℚ) + 1) * g.stickout
          have h6 : ((i : ℚ) + 1) * g.stickout = (i : ℚ) * g.stickout + g.stickout := by
            ring
          linarith
    · have hieq : i = (⌈jsMaxList zs / g.stickout⌉).toNat - 1 := by omega
      subst hieq
      have hgetD := interpolatePoints_getD_last g xs zs hne h0
      obtain ⟨xh, hhead, _⟩ :=
        closedFinal_head g xs zs hlen hcard hpw h0 hL _ (le_refl _)
      have hlast := closedFinal_last g xs zs hlen hcard hpw h0 hL
        ((⌈jsMaxList zs / g.stickout⌉).toNat - 1) (le_refl _)
      have hbounds := closedFinal_bounds g xs zs hlen hcard hpw h0 hL
        ((⌈jsMaxList zs / g.stickout⌉).toNat - 1) (le_refl _)
      refine ⟨?_, ?_, ?_⟩
      · rw [hgetD, List.head?_map, hhead, Option.map_some']
        show some ((0 : ℚ) +
          (((⌈jsMaxList zs / g.stickout⌉).toNat - 1 : ℕ) : ℚ) * g.stickout) = _
        rw [zero_add]
      · rw [hgetD, List.getLast?_map, hlast, Option.map_some', if_neg (by omega)]
        show some (jsMaxList zs -
          (((⌈jsMaxList zs / g.stickout⌉).toNat - 1 : ℕ) : ℚ) * g.stickout +
          (((⌈jsMaxList zs / g.stickout⌉).toNat - 1 : ℕ) : ℚ) * g.stickout) = _
        rw [sub_add_cancel]
      · intro q hq
        rw [hgetD] at hq
        obtain ⟨p, hp, rfl⟩ := List.mem_map.mp hq
        obtain ⟨hp0, hpM⟩ := hbounds p hp
        refine ⟨?_, ?_⟩
        · show (((⌈jsMaxList zs / g.stickout⌉).toNat - 1 : ℕ) : ℚ) * g.stickout ≤
            p.z + (((⌈jsMaxList zs / g.stickout⌉).toNat - 1 : ℕ) : ℚ) * g.stickout
          linarith
        · rw [if_neg (by omega)]
          show p.z + (((⌈jsMaxList zs / g.stickout⌉).toNat - 1 : ℕ) : ℚ) * g.stickout ≤
            jsMaxList zs
          linarith
  · intro j hj
    have hzj0 : 0 ≤ zs.getD j 0 := getD_nonneg_of zs hpw h0 j hj
    have hzjmax : zs.getD j 0 ≤ jsMaxList zs := getD_le_maxZ zs j hj
    constructor
    · intro hbdry
      obtain ⟨k, hkmem, hzk⟩ := hbdry
      obtain ⟨hk1, hkn⟩ := Finset.mem_Icc.mp hkmem
      apply sum_indicator_double _ (k - 1) k _ (by omega) (by omega) (by omega)
      · intro i hi2
        by_cases hif : i < (⌈jsMaxList zs / g.stickout⌉).toNat - 1
        · show ((((interpolatePoints g xs zs).getD i (mkSection g [])).points.map
            (fun p => DimensionPoint.mk p.x (p.z + (i : ℚ) * g.stickout))).count
            (DimensionPoint.mk (xs.getD j 0) (zs.getD j 0))) = _
          rw [interpolatePoints_getD_lt g xs zs hne h0 i hif,
            closedSec_count g xs zs hlen hcard hpw h0 hL i (by omega) j hj, hzk]
          have hik1 : ((i : ℚ) * g.stickout ≤ (k : ℚ) * g.stickout) ↔ i ≤ k := by
            rw [mul_le_mul_right hL, Nat.cast_le]
          have hik2 : ((k : ℚ) * g.stickout ≤ ((i : ℚ) + 1) * g.stickout) ↔
              k ≤ i + 1 := by
            rw [mul_le_mul_right hL,
              show ((i : ℚ) + 1) = ((i + 1 : ℕ) : ℚ) from by push_cast; ring,
              Nat.cast_le]
          rw [if_congr (and_congr hik1 hik2) rfl rfl,
            if_congr (show (i ≤ k ∧ k ≤ i + 1) ↔ (i = k - 1 ∨ i = k) from by omega)
              rfl rfl]
        · have hieq : i = (⌈jsMaxList zs / g.stickout⌉).toNat - 1 := by omega
          subst hieq
          show ((((interpolatePoints g xs zs).getD
            ((⌈jsMaxList zs / g.stickout⌉).toNat - 1) (mkSection g [])).points.map
            (fun p => DimensionPoint.mk p.x
              (p.z + (((⌈jsMaxList zs / g.stickout⌉).toNat - 1 : ℕ) : ℚ) *
                g.stickout))).count
            (DimensionPoint.mk (xs.getD j 0) (zs.getD j 0))) = _
          rw [interpolatePoints_getD_last g xs zs hne h0,
            closedFinal_count g xs zs hlen hcard hpw h0 hL _ (le_refl _) j hj, hzk]
          have hcond : ((((⌈jsMaxList zs / g.stickout⌉).toNat - 1 : ℕ) : ℚ) *
              g.stickout ≤ (k : ℚ) * g.stickout) ↔
              ((⌈jsMaxList zs / g.stickout⌉).toNat - 1 ≤ k) := by
            rw [mul_le_mul_right hL, Nat.cast_le]
          rw [if_congr hcond rfl rfl,
            if_congr (show ((⌈jsMaxList zs / g.stickout⌉).toNat - 1 ≤ k) ↔
              ((⌈jsMaxList zs / g.stickout⌉).toNat - 1 = k - 1 ∨
               (⌈jsMaxList zs / g.stickout⌉).toNat - 1 = k) from by omega) rfl rfl]
    · intro hbdry
      push_neg at hbdry
      have hnob : ∀ m, 1 ≤ m → m ≤ (⌈jsMaxList zs / g.stickout⌉).toNat - 1 →
          zs.getD j 0 ≠ (m : ℚ) * g.stickout := by
        intro m hm1 hm2
        exact hbdry m (Finset.mem_Icc.mpr ⟨hm1, hm2⟩)
      by_cases hcaseA : zs.getD j 0 <
          (((⌈jsMaxList zs / g.stickout⌉).toNat : ℚ) - 1) * g.stickout
      · have hfl0 : 0 ≤ ⌊zs.getD j 0 / g.stickout⌋ :=
          Int.floor_nonneg.mpr (div_nonneg hzj0 (le_of_lt hL))
        have hqcast : (((⌊zs.getD j 0 / g.stickout⌋).toNat : ℕ) : ℚ) =
            ((⌊zs.getD j 0 / g.stickout⌋ : ℤ) : ℚ) := by
          have h3 : (((⌊zs.getD j 0 / g.stickout⌋).toNat : ℤ) : ℚ) =
              ((⌊zs.getD j 0 / g.stickout⌋ : ℤ) : ℚ) := by
            rw [Int.toNat_of_nonneg hfl0]
          push_cast at h3
          exact_mod_cast h3
        have hql : (((⌊zs.getD j 0 / g.stickout⌋).toNat : ℕ) : ℚ) * g.stickout ≤
            zs.getD j 0 := by
          rw [hqcast]
          have h3 := Int.floor_le (zs.getD j 0 / g.stickout)
          calc ((⌊zs.getD j 0 / g.stickout⌋ : ℤ) : ℚ) * g.stickout
              ≤ (zs.getD j 0 / g.stickout) * g.stickout :=
                mul_le_mul_of_nonneg_right h3 (le_of_lt hL)
          _ = zs.getD j 0 := div_mul_cancel₀ _ (ne_of_gt hL)
        have hqu : zs.getD j 0 <
            ((((⌊zs.getD j 0 / g.stickout⌋).toNat : ℕ) : ℚ) + 1) * g.stickout := by
          rw [hqcast]
          have h3 := Int.lt_floor_add_one (zs.getD j 0 / g.stickout)
          have h4 : zs.getD j 0 / g.stickout <
              ((⌊zs.getD j 0 / g.stickout⌋ : ℤ) : ℚ) + 1 := by
            push_cast at h3 ⊢
            linarith
          calc zs.getD j 0 = (zs.getD j 0 / g.stickout) * g.stickout :=
                (div_mul_cancel₀ _ (ne_of_gt hL)).symm
          _ < (((⌊zs.getD j 0 / g.stickout⌋ : ℤ) : ℚ) + 1) * g.stickout :=
                mul_lt_mul_of_pos_right h4 hL
        have hqn : (⌊zs.getD j 0 / g.stickout⌋).toNat ≤
            (⌈jsMaxList zs / g.stickout⌉).toNat - 2 := by
          have h3 : ⌊zs.getD j 0 / g.stickout⌋ <
              ((⌈jsMaxList zs / g.stickout⌉).toNat : ℤ) - 1 := by
            rw [Int.floor_lt]
            rw [div_lt_iff₀ hL]
            push_cast
            push_cast at hcaseA
            linarith
          omega
        have hnge2 : 2 ≤ (⌈jsMaxList zs / g.stickout⌉).toNat := by
          by_contra hc
          have h3 : (⌈jsMaxList zs / g.stickout⌉).toNat = 1 := by omega
          rw [h3] at hcaseA
          rw [show (((1 : ℕ) : ℚ) - 1) * g.stickout = 0 from by norm_num] at hcaseA
          linarith
        apply sum_indicator_single _ ((⌊zs.getD j 0 / g.stickout⌋).toNat) _ (by omega)
        intro i hi2
        by_cases hif : i < (⌈jsMaxList zs / g.stickout⌉).toNat - 1
        · show ((((interpolatePoints g xs zs).getD i (mkSection g [])).points.map
            (fun p => DimensionPoint.mk p.x (p.z + (i : ℚ) * g.stickout))).count
            (DimensionPoint.mk (xs.getD j 0) (zs.getD j 0))) = _
          rw [interpolatePoints_getD_lt g xs zs hne h0 i hif,
            closedSec_count g xs zs hlen hcard hpw h0 hL i (by omega) j hj]
          by_cases hiq : i = (⌊zs.getD j 0 / g.stickout⌋).toNat
          · rw [if_pos ?side, if_pos hiq]
            case side =>
              subst hiq
              exact ⟨hql, le_of_lt hqu⟩
          · rw [if_neg ?side, if_neg hiq]
            case side =>
              rintro ⟨hA, hB⟩
              rcases Nat.lt_or_ge i ((⌊zs.getD j 0 / g.stickout⌋).toNat) with hc | hc
              · have h8 : ((i : ℚ) + 1) * g.stickout ≤
                    (((⌊zs.getD j 0 / g.stickout⌋).toNat : ℕ) : ℚ) * g.stickout := by
                  apply mul_le_mul_of_nonneg_right _ (le_of_lt hL)
                  rw [show ((i : ℚ) + 1) = ((i + 1 : ℕ) : ℚ) from by push_cast; ring,
                    Nat.cast_le]
                  omega
                have h9 : zs.getD j 0 = ((i : ℚ) + 1) * g.stickout :=
                  le_antisymm hB (le_trans h8 hql)
                apply hnob (i + 1) (by omega) (by omega)
                rw [h9]
                push_cast
                ring
              · have h8 : (((⌊zs.getD j 0 / g.stickout⌋).toNat : ℕ) : ℚ) + 1 ≤
                    (i : ℚ) := by
                  rw [show ((((⌊zs.getD j 0 / g.stickout⌋).toNat : ℕ) : ℚ) + 1) =
                    (((⌊zs.getD j 0 / g.stickout⌋).toNat + 1 : ℕ) : ℚ) from by
                      push_cast; ring, Nat.cast_le]
                  omega
                have h10 : ((((⌊zs.getD j 0 / g.stickout⌋).toNat : ℕ) : ℚ) + 1) *
                    g.stickout ≤ (i : ℚ) * g.stickout :=
                  mul_le_mul_of_nonneg_right h8 (le_of_lt hL)
                linarith
        · have hieq : i = (⌈jsMaxList zs / g.stickout⌉).toNat - 1 := by omega
          subst hieq
          show ((((interpolatePoints g xs zs).getD
            ((⌈jsMaxList zs / g.stickout⌉).toNat - 1) (mkSection g [])).points.map
            (fun p => DimensionPoint.mk p.x
              (p.z + (((⌈jsMaxList zs / g.stickout⌉).toNat - 1 : ℕ) : ℚ) *
                g.stickout))).count
            (DimensionPoint.mk (xs.getD j 0) (zs.getD j 0))) = _
          rw [interpolatePoints_getD_last g xs zs hne h0,
            closedFinal_count g xs zs hlen hcard hpw h0 hL _ (le_refl _) j hj]
          rw [if_neg ?side, if_neg (by omega)]
          case side =>
            intro hA
            have h8 : ((((⌊zs.getD j 0 / g.stickout⌋).toNat : ℕ) : ℚ) + 1) *
                g.stickout ≤
                (((⌈jsMaxList zs / g.stickout⌉).toNat - 1 : ℕ) : ℚ) * g.stickout := by
              apply mul_le_mul_of_nonneg_right _ (le_of_lt hL)
              rw [show ((((⌊zs.getD j 0 / g.stickout⌋).toNat : ℕ) : ℚ) + 1) =
                (((⌊zs.getD j 0 / g.stickout⌋).toNat + 1 : ℕ) : ℚ) from by
                  push_cast; ring, Nat.cast_le]
              omega
            linarith
      · push_neg at hcaseA
        apply sum_indicator_single _ ((⌈jsMaxList zs / g.stickout⌉).toNat - 1) _
          (by omega)
        intro i hi2
        by_cases hif : i < (⌈jsMaxList zs / g.stickout⌉).toNat - 1
        · show ((((interpolatePoints g xs zs).getD i (mkSection g [])).points.map
            (fun p => DimensionPoint.mk p.x (p.z + (i : ℚ) * g.stickout))).count
            (DimensionPoint.mk (xs.getD j 0) (zs.getD j 0))) = _
          rw [interpolatePoints_getD_lt g xs zs hne h0 i hif,
            closedSec_count g xs zs hlen hcard hpw h0 hL i (by omega) j hj]
          rw [if_neg ?side, if_neg (by omega)]
          case side =>
            rintro ⟨hA, hB⟩
            have h8 : ((i : ℚ) + 1) * g.stickout ≤
                (((⌈jsMaxList zs / g.stickout⌉).toNat : ℚ) - 1) * g.stickout := by
              apply mul_le_mul_of_nonneg_right _ (le_of_lt hL)
              have hnatc : (i : ℚ) + 2 ≤ ((⌈jsMaxList zs / g.stickout⌉).toNat : ℚ) := by
                exact_mod_cast show i + 2 ≤ (⌈jsMaxList zs / g.stickout⌉).toNat
                  from by omega
              linarith
            have h9 : zs.getD j 0 = ((i : ℚ) + 1) * g.stickout :=
              le_antisymm hB (le_trans h8 hcaseA)
            apply hnob (i + 1) (by omega) (by omega)
            rw [h9]
            push_cast
            ring
        · have hieq : i = (⌈jsMaxList zs / g.stickout⌉).toNat - 1 := by omega
          subst hieq
          show ((((interpolatePoints g xs zs).getD
            ((⌈jsMaxList zs / g.stickout⌉).toNat - 1) (mkSection g [])).points.map
            (fun p => DimensionPoint.mk p.x
              (p.z + (((⌈jsMaxList zs / g.stickout⌉).toNat - 1 : ℕ) : ℚ) *
                g.stickout))).count
            (DimensionPoint.mk (xs.getD j 0) (zs.getD j 0))) = _
          rw [interpolatePoints_getD_last g xs zs hne h0,
            closedFinal_count g xs zs hlen hcard hpw h0 hL _ (le_refl _) j hj]
          rw [if_pos ?side, if_pos rfl]
          case side =>
            have hc1 : (((⌈jsMaxList zs / g.stickout⌉).toNat - 1 : ℕ) : ℚ) =
                ((⌈jsMaxList zs / g.stickout⌉).toNat : ℚ) - 1 := by
              rw [Nat.cast_sub hn1]
              norm_num
            rw [hc1]
            exact hcaseA
  · intro j k hj hk1 hkn hzk
    have hn2 : 2 ≤ (⌈jsMaxList zs / g.stickout⌉).toNat := by omega
    have hcastk : (((k - 1 : ℕ)) : ℚ) + 1 = (k : ℚ) := by
      rw [Nat.cast_sub hk1]
      ring
    constructor
    · rw [interpolatePoints_getD_lt g xs zs hne h0 (k - 1) (by omega)]
      obtain ⟨x, hlast, hident⟩ :=
        closedSec_last g xs zs hlen hcard hpw h0 hL (k - 1) (by omega)
      have hx := hident j hj (by rw [hcastk]; exact hzk)
      rw [hlast, hx]
    · by_cases hkn2 : k < (⌈jsMaxList zs / g.stickout⌉).toNat - 1
      · rw [interpolatePoints_getD_lt g xs zs hne h0 k hkn2]
        obtain ⟨x, hhead, hident⟩ :=
          closedSec_head g xs zs hlen hcard hpw h0 hL k (by omega)
        have hx := hident j hj hzk
        rw [hhead, hx]
      · have hkeq : k = (⌈jsMaxList zs / g.stickout⌉).toNat - 1 := by omega
        rw [hkeq, interpolatePoints_getD_last g xs zs hne h0]
        obtain ⟨x, hhead, hident⟩ :=
          closedFinal_head g xs zs hlen hcard hpw h0 hL _ (le_refl _)
        have hx := hident j hj (by rw [← hkeq]; exact hzk)
        rw [hhead, hx]


/-- Concrete instantiation of the segmentation coverage theorem: measured
points (0.30 at z 0) and (0.40 at z 2.0) with unit stickout are split into
ceil(2/1) = 2 sections. -/
theorem segmentation_coverage_witness :
    List.Pairwise (· < ·) [(0 : ℚ), 2] ∧ (0 : ℚ) < defaultGlobals.stickout ∧
    (interpolatePoints defaultGlobals [3/10, 2/5] [0, 2]).length =
      (⌈jsMaxList [(0 : ℚ), 2] / defaultGlobals.stickout⌉).toNat := by
  have hpw : List.Pairwise (· < ·) [(0 : ℚ), 2] :=
    of_decide_eq_true (by with_unfolding_all rfl)
  have hL : (0 : ℚ) < defaultGlobals.stickout :=
    of_decide_eq_true (by with_unfolding_all rfl)
  exact ⟨hpw, hL,
    (segmentation_coverage defaultGlobals [3/10, 2/5] [0, 2] rfl (le_refl 2)
      hpw rfl hL).1⟩

end Mandrel
